import Mathlib

/-!
Shallow embedding of the `jumplist_parser` crate's binary decoding engine
(`src/custom_destinations.rs`, `src/destlist.rs`, `src/lib.rs`) and proofs of
the frozen claims about it.

Byte streams are modelled as a list of bytes plus a cursor position
(`RState`), mirroring `std::io::Cursor`.  The external collaborators (the
`lnk_parser` LNK decoder, the `cfb` compound-file reader, the
`winparsingtools` primitive field reader and the application-id lookup
table) are opaque per the specification; they enter as parameters or, where
the specification pins their behaviour (GUID rendering, UTF-16/UTF-8 string
reads), as definitions modelled from the specification's words.
-/

set_option autoImplicit false

deriving instance DecidableEq for Except

set_option maxRecDepth 10000

namespace Jumplist

/-- A byte. -/
abbrev Byte := Fin 256

/-- Model of a seekable byte source (`std::io::Cursor` over the input): the
underlying bytes and the current position. -/
structure RState where
  data : List Byte
  pos : Nat
deriving DecidableEq

/-- Model of `read_exact` for `n` bytes on a cursor: succeeds with the next
`n` bytes exactly when at least `n` bytes remain past the position. -/
def readBytes (n : Nat) (s : RState) : Option (List Byte × RState) :=
  if s.pos + n ≤ s.data.length then
    some ((s.data.drop s.pos).take n, { s with pos := s.pos + n })
  else none

/-- Little-endian value of a byte list. -/
def leVal : List Byte → Nat
  | [] => 0
  | b :: rest => b.val + 256 * leVal rest

/-- Model of byteorder's `read_u16::<LittleEndian>`. -/
def readU16 (s : RState) : Option (Nat × RState) :=
  (readBytes 2 s).map fun p => (leVal p.1, p.2)

/-- Model of byteorder's `read_u32::<LittleEndian>`. -/
def readU32 (s : RState) : Option (Nat × RState) :=
  (readBytes 4 s).map fun p => (leVal p.1, p.2)

/-- Model of byteorder's `read_u64::<LittleEndian>`. -/
def readU64 (s : RState) : Option (Nat × RState) :=
  (readBytes 8 s).map fun p => (leVal p.1, p.2)

/-- Model of byteorder's `read_i32::<LittleEndian>`: the u32 value
reinterpreted as a signed 32-bit integer. -/
def readI32 (s : RState) : Option (Int × RState) :=
  (readBytes 4 s).map fun p =>
    (if leVal p.1 < 2 ^ 31 then (leVal p.1 : Int) else (leVal p.1 : Int) - 2 ^ 32, p.2)

/-- Model of `Seek::seek(SeekFrom::Current(n))` for a nonnegative offset on a
cursor: moves the position forward and never fails (a cursor may be
positioned past the end of its data). -/
def seekCur (n : Nat) (s : RState) : RState :=
  { s with pos := s.pos + n }

/-- UTF-16 code units of a byte list, two little-endian bytes per unit. -/
def utf16Units : List Byte → List Nat
  | b0 :: b1 :: rest => (b0.val + 256 * b1.val) :: utf16Units rest
  | _ => []

/-- Modelled from the spec: winparsingtools `read_utf16_string` with an
explicit length, the primitive field reader's UTF-16 string read (its code is
outside this repository).  Reads `n` 16-bit code units; per the spec it fails
exactly when insufficient bytes remain.  The decoded string is represented as
its code-unit sequence. -/
def readUtf16 (n : Nat) (s : RState) : Option (List Nat × RState) :=
  (readBytes (2 * n) s).map fun p => (utf16Units p.1, p.2)

/-- Trailing NUL bytes removed. -/
def trimNuls (l : List Byte) : List Byte :=
  (l.reverse.dropWhile (· = (0 : Byte))).reverse

/-- Modelled from the spec: winparsingtools `read_utf8_string` with a fixed
width, the primitive field reader's fixed-width UTF-8 read (its code is
outside this repository): reads `n` bytes and trims trailing NUL padding.
The string is represented as its byte sequence. -/
def readUtf8Fixed (n : Nat) (s : RState) : Option (List Byte × RState) :=
  (readBytes n s).map fun p => (trimNuls p.1, p.2)

/-- A 128-bit GUID as winparsingtools stores it: little-endian u32, u16, u16,
then 8 raw bytes. -/
structure Guid where
  data1 : Nat
  data2 : Nat
  data3 : Nat
  data4 : List Byte
deriving DecidableEq

/-- Modelled from the spec: winparsingtools `Guid::from_reader` (primitive
field reader, outside this repository): 16 bytes, consumed as a little-endian
u32, two little-endian u16s and 8 raw bytes. -/
def guidOfBytes (l : List Byte) : Guid :=
  { data1 := leVal (l.take 4)
    data2 := leVal ((l.drop 4).take 2)
    data3 := leVal ((l.drop 6).take 2)
    data4 := (l.drop 8).take 8 }

/-- Model of winparsingtools `Guid::from_reader` applied directly to the
stream: consumes 16 bytes, fails if fewer remain. -/
def Guid.from_reader (s : RState) : Option (Guid × RState) :=
  (readBytes 16 s).map fun p => (guidOfBytes p.1, p.2)

/-- Uppercase hexadecimal digit for a value below 16. -/
def hexUpper (n : Nat) : Char :=
  if n < 10 then Char.ofNat (48 + n) else Char.ofNat (55 + n)

/-- Fixed-width uppercase hexadecimal rendering, most significant digit
first (`{:08X}` and friends). -/
def natHexFixed : Nat → Nat → List Char
  | 0, _ => []
  | d + 1, n => natHexFixed d (n / 16) ++ [hexUpper (n % 16)]

/-- Modelled from the spec: the standard `XXXXXXXX-XXXX-XXXX-XXXX-XXXXXXXXXXXX`
textual GUID form winparsingtools renders (uppercase hexadecimal), as a
character list. -/
def Guid.chars (g : Guid) : List Char :=
  natHexFixed 8 g.data1 ++
    '-' :: (natHexFixed 4 g.data2 ++
      '-' :: (natHexFixed 4 g.data3 ++
        '-' :: ((g.data4.take 2).flatMap (fun b => natHexFixed 2 b.val) ++
          '-' :: (g.data4.drop 2).flatMap (fun b => natHexFixed 2 b.val))))

/-- The GUID's textual form, as compared and printed by the source. -/
def Guid.render (g : Guid) : String :=
  String.mk g.chars

/-- The 16 bytes of the shell-link class identifier
`00021401-0000-0000-C000-000000000046`. -/
def classIdBytes : List Byte :=
  [0x01, 0x14, 0x02, 0x00, 0x00, 0x00, 0x00, 0x00,
   0xC0, 0x00, 0x00, 0x00, 0x00, 0x00, 0x00, 0x46]

/-- The textual shell-link class identifier the source compares against. -/
def classIdStr : String := "00021401-0000-0000-C000-000000000046"

/-- Model of `errors.rs` `JumplistParserError`.  Each variant carries its
message; the `line!()` / `file!()` source-location payloads are elided (no
claim depends on them). -/
inductive JumplistParserError where
  | DestList (msg : String)
  | DestListHeader (msg : String)
  | DestListEntry (msg : String)
  | LnkEntry (msg : String)
  | JumplistParser (msg : String)
  | FileStructure (msg : String)
  | General (msg : String)
  | NoDestList (msg : String)
  | FileType (msg : String)
deriving DecidableEq

/-- Outcome of a Rust call that can return `Ok`, return `Err`, or panic
(`unwrap()` on `None`). -/
inductive POutcome (α : Type) where
  | ok (a : α)
  | error (e : JumplistParserError)
  | panicked (msg : String)
deriving DecidableEq

/-- Message of the `std::io` error a short read produces (`e.to_string()` in
the source's `map_err` closures). -/
def ioErrMsg : String := "failed to fill whole buffer"

/-- Message of the panic `Option::unwrap` raises on `None`. -/
def unwrapPanicMsg : String := "called Option::unwrap() on a None value"

/-- Stand-in message for an external LNK decode error
(`LNKParser` error rendered by `e.to_string()`); the decoder is opaque, so
the text is a fixed placeholder. -/
def lnkErrMsg : String := "LNK parse error"

/-- The opaque external shell-link decoder (`lnk_parser::LNKParser`) and its
accessors, per the spec's external-interface contract.  `Lnk` is the decoder's
record type. -/
structure Ext (Lnk : Type) where
  parseLnkStream : RState → Option (Lnk × RState)
  parseLnkBuffer : List Byte → Option Lnk
  normalizeLnk : Lnk → List (String × String)
  getNameString : Lnk → Option String
  getCommandLineArguments : Lnk → Option String

/-- A trivial instantiation of the opaque LNK decoder, used to evaluate the
embedding on concrete inputs. -/
def trivExt : Ext Unit :=
  { parseLnkStream := fun _ => none
    parseLnkBuffer := fun _ => none
    normalizeLnk := fun _ => []
    getNameString := fun _ => none
    getCommandLineArguments := fun _ => none }

/-! ## CustomDestinations decoder (`src/custom_destinations.rs`) -/

/-- Model of `CatagoryType` (sic, the source's spelling). -/
inductive CatagoryType where
  | Custom
  | Known
  | Task
deriving DecidableEq

/-- Model of `CategoryID`; `noneId` models the source's `CategoryID::None`. -/
inductive CategoryID where
  | Frequent
  | Recent
  | noneId
  | Unknown (val : Int)
deriving DecidableEq

/-- Model of `CustomDestinationsHeader` (the source spells the reserved field
`unkonwn`). -/
structure CustomDestinationsHeader where
  version : Nat
  num_of_cat : Nat
  unkonwn : Nat
deriving DecidableEq

/-- Model of `Catagory`.  The category name is a UTF-16 code-unit sequence,
`entries` are the decoded LNK records. -/
structure Catagory (Lnk : Type) where
  type : CatagoryType
  name : Option (List Nat)
  num_of_entries : Option Nat
  id : Option CategoryID
  entries : Option (List Lnk)
deriving DecidableEq

/-- Model of `CustomDestinations`. -/
structure CustomDestinations (Lnk : Type) where
  header : CustomDestinationsHeader
  entries : List (Catagory Lnk)
deriving DecidableEq

/-- Model of `CustomDestinationsHeader::from_reader`: three little-endian
u32 reads, each failing with `FileStructure` on a short stream. -/
def CustomDestinationsHeader.from_reader (s : RState) :
    Except JumplistParserError (CustomDestinationsHeader × RState) :=
  match readU32 s with
  | none => .error (.FileStructure ioErrMsg)
  | some (version, s₁) =>
    match readU32 s₁ with
    | none => .error (.FileStructure ioErrMsg)
    | some (num_of_cat, s₂) =>
      match readU32 s₂ with
      | none => .error (.FileStructure ioErrMsg)
      | some (unkonwn, s₃) =>
        .ok ({ version := version, num_of_cat := num_of_cat, unkonwn := unkonwn }, s₃)

/-- Model of the embedded-entry loop `CustomDestinations::from_reader` runs
for each `Custom` ("Custom") and `Task` ("Task") category: per entry it
reads 16 class-id bytes with `read_exact` (`FileStructure` on a short
stream), parses them as a GUID (infallible on 16 bytes), rejects a GUID whose
rendering differs from the shell-link class id with a `FileStructure` error
naming the GUID observed, and otherwise decodes one LNK record from the
stream (`LnkEntry` error on external-decoder failure). -/
def readCatEntries {Lnk : Type} (ext : Ext Lnk) (catName : String) :
    Nat → RState → POutcome (List Lnk × RState)
  | 0, s => .ok ([], s)
  | n + 1, s =>
    match readBytes 16 s with
    | none => .error (.FileStructure ioErrMsg)
    | some (guidData, s₁) =>
      let guid := guidOfBytes guidData
      if guid.render ≠ classIdStr then
        .error (.FileStructure
          (catName ++ " Category with unknown entry GUID '" ++ guid.render ++ "'"))
      else
        match ext.parseLnkStream s₁ with
        | none => .error (.LnkEntry lnkErrMsg)
        | some (lnk, s₂) =>
          match readCatEntries ext catName n s₂ with
          | .ok (rest, s₃) => .ok (lnk :: rest, s₃)
          | .error e => .error e
          | .panicked m => .panicked m

/-- The tolerated name read of a `Custom` category
(`read_utf16_string(...).ok()`): a successful read yields the name and the
advanced stream; a failed read leaves `None` and, per `read_exact`'s
behaviour on a short read, the stream drained to the end of its data. -/
def readNameOpt (nameLen : Nat) (s₂ : RState) : Option (List Nat) × RState :=
  match readUtf16 nameLen s₂ with
  | some (nm, s₃) => (some nm, s₃)
  | none => (none, { s₂ with pos := s₂.data.length })

/-- Model of the category loop of `CustomDestinations::from_reader`, one
iteration per remaining category.  Mirrors the source faithfully, including
its two `Option::unwrap` panics in the `Custom` and `Task` branches (the u16
name-length read is `.ok().unwrap()`, and the u32 entry-count read is `.ok()`
then `.unwrap()` inside the loop bound), the tolerated name-read failure
(`.ok()`, leaving `name` as `None`; a failed `read_exact` consumes the
remaining bytes, so the position moves to the end of the data), and the
unconditional 4-byte footer seek after every record. -/
def catLoop {Lnk : Type} (ext : Ext Lnk) :
    Nat → RState → POutcome (List (Catagory Lnk) × RState)
  | 0, s => .ok ([], s)
  | n + 1, s =>
    match readU32 s with
    | none => .error (.FileStructure ioErrMsg)
    | some (t, s₁) =>
      if t = 0x00 then
        match readU16 s₁ with
        | none => .panicked unwrapPanicMsg
        | some (nameLen, s₂) =>
          let np := readNameOpt nameLen s₂
          match readU32 np.2 with
          | none => .panicked unwrapPanicMsg
          | some (numEntries, s₄) =>
            match readCatEntries ext "Custom" numEntries s₄ with
            | .error e => .error e
            | .panicked m => .panicked m
            | .ok (entries, s₅) =>
              match catLoop ext n (seekCur 4 s₅) with
              | .error e => .error e
              | .panicked m => .panicked m
              | .ok (rest, sf) =>
                .ok ({ type := .Custom, name := np.1, num_of_entries := some numEntries,
                       id := none, entries := some entries } :: rest, sf)
      else if t = 0x01 then
        match readI32 s₁ with
        | none => .error (.FileStructure ioErrMsg)
        | some (idVal, s₂) =>
          let id : CategoryID :=
            if idVal = 1 then .Frequent
            else if idVal = 2 then .Recent
            else if idVal = -1 then .noneId
            else .Unknown idVal
          match catLoop ext n (seekCur 4 s₂) with
          | .error e => .error e
          | .panicked m => .panicked m
          | .ok (rest, sf) =>
            .ok ({ type := .Known, name := none, num_of_entries := none,
                   id := some id, entries := none } :: rest, sf)
      else if t = 0x02 then
        match readU32 s₁ with
        | none => .panicked unwrapPanicMsg
        | some (numEntries, s₂) =>
          match readCatEntries ext "Task" numEntries s₂ with
          | .error e => .error e
          | .panicked m => .panicked m
          | .ok (entries, s₃) =>
            match catLoop ext n (seekCur 4 s₃) with
            | .error e => .error e
            | .panicked m => .panicked m
            | .ok (rest, sf) =>
              .ok ({ type := .Task, name := none, num_of_entries := some numEntries,
                     id := none, entries := some entries } :: rest, sf)
      else
        .error (.FileStructure ("CatagoryType unknown '" ++ toString t ++ "'"))

/-- Model of `CustomDestinations::from_reader`: decode the header, then run
the category loop exactly `num_of_cat` times; no trailing-data validation
follows the last record. -/
def CustomDestinations.from_reader {Lnk : Type} (ext : Ext Lnk) (s : RState) :
    POutcome (CustomDestinations Lnk) :=
  match CustomDestinationsHeader.from_reader s with
  | .error e => .error e
  | .ok (header, s₁) =>
    match catLoop ext header.num_of_cat s₁ with
    | .error e => .error e
    | .panicked m => .panicked m
    | .ok (categories, _) => .ok { header := header, entries := categories }

/-! ## DestList decoder (`src/destlist.rs`) -/

/-- Model of winparsingtools `FileTime::new` applied to the raw u64. -/
structure FileTime where
  value : Nat
deriving DecidableEq

/-- Model of `DestListHeader`. -/
structure DestListHeader where
  version : Nat
  number_of_entries : Nat
  number_of_pinned_entries : Nat
deriving DecidableEq

/-- Model of `DestListEntry`.  `hostname` is the trimmed UTF-8 byte sequence,
`path` the UTF-16 code-unit sequence. -/
structure DestListEntry (Lnk : Type) where
  entry_id : Option Nat
  volume_droid : Guid
  file_droid : Guid
  volume_birth_droid : Guid
  file_birth_droid : Guid
  hostname : List Byte
  entry_number : Nat
  mtime : FileTime
  pined : Bool
  path : List Nat
  lnk : Option Lnk
deriving DecidableEq

/-- Model of `DestList`. -/
structure DestList (Lnk : Type) where
  header : DestListHeader
  entries : List (DestListEntry Lnk)
deriving DecidableEq

/-- Model of `DestListHeader::from_reader`: three little-endian u32 reads,
then a 20-byte seek past the unknown bytes. -/
def DestListHeader.from_reader (s : RState) :
    Except JumplistParserError (DestListHeader × RState) :=
  match readU32 s with
  | none => .error (.DestListHeader "Can't parse the 'version'")
  | some (version, s₁) =>
    match readU32 s₁ with
    | none => .error (.DestListHeader "Can't parse the 'number_of_entries'")
    | some (number_of_entries, s₂) =>
      match readU32 s₂ with
      | none => .error (.DestListHeader "Can't parse the 'number_of_pinned_entries'")
      | some (number_of_pinned_entries, s₃) =>
        .ok ({ version := version, number_of_entries := number_of_entries,
               number_of_pinned_entries := number_of_pinned_entries }, seekCur 20 s₃)

/-- Model of `DestListEntry::from_reader` at the given header version: skip 8
unknown bytes; four GUIDs; 16-byte hostname; u32 entry number; skip 8 unknown
bytes; u64 file time; u32 pin sentinel (`0xFFFFFFFF` means not pinned, any
other value means pinned); if version > 1 skip 16 unknown bytes; u16 path
size and UTF-16 path of that many code units; if version > 1 skip 4 unknown
bytes.  `lnk` and `entry_id` start out absent. -/
def DestListEntry.from_reader {Lnk : Type} (version : Nat) (s : RState) :
    Except JumplistParserError (DestListEntry Lnk × RState) :=
  let s₀ := seekCur 8 s
  match Guid.from_reader s₀ with
  | none => .error (.DestListEntry "Can't parse the 'volume_droid'")
  | some (volume_droid, s₁) =>
    match Guid.from_reader s₁ with
    | none => .error (.DestListEntry "Can't parse the 'file_droid'")
    | some (file_droid, s₂) =>
      match Guid.from_reader s₂ with
      | none => .error (.DestListEntry "Can't parse the 'volume_birth_droid'")
      | some (volume_birth_droid, s₃) =>
        match Guid.from_reader s₃ with
        | none => .error (.DestListEntry "Can't parse the 'file_birth_droid'")
        | some (file_birth_droid, s₄) =>
          match readUtf8Fixed 16 s₄ with
          | none => .error (.DestListEntry "Can't parse the 'hostname'")
          | some (hostname, s₅) =>
            match readU32 s₅ with
            | none => .error (.DestListEntry "Can't parse the 'entry_number'")
            | some (entry_number, s₆) =>
              let s₇ := seekCur 8 s₆
              match readU64 s₇ with
              | none => .error (.DestListEntry "Can't parse the 'mtime'")
              | some (mtimeRaw, s₈) =>
                match readU32 s₈ with
                | none => .error (.DestListEntry "Can't parse the 'pined'")
                | some (pinRaw, s₉) =>
                  let pined := if pinRaw = 0xffffffff then false else true
                  let s₁₀ := if version > 1 then seekCur 16 s₉ else s₉
                  match readU16 s₁₀ with
                  | none => .error (.DestListEntry "Can't parse the 'path_size'")
                  | some (path_size, s₁₁) =>
                    match readUtf16 path_size s₁₁ with
                    | none => .error (.DestListEntry "Can't parse the 'path'")
                    | some (path, s₁₂) =>
                      let s₁₃ := if version > 1 then seekCur 4 s₁₂ else s₁₂
                      .ok ({ entry_id := none, volume_droid := volume_droid,
                             file_droid := file_droid,
                             volume_birth_droid := volume_birth_droid,
                             file_birth_droid := file_birth_droid,
                             hostname := hostname, entry_number := entry_number,
                             mtime := { value := mtimeRaw }, pined := pined,
                             path := path, lnk := none }, s₁₃)

/-- Model of a `cfb::Entry` as the source consumes it: its base name, its
path (the key handed to `open_stream`), and its stream length. -/
structure CfbEntry where
  name : String
  path : String
  len : Nat
deriving DecidableEq

/-- The name of the embedded shell-link stream correlated with an entry:
the entry number rendered in lowercase hexadecimal, exactly what the
source's `format!` with the `x?` specifier prints for a u32. -/
def entryStreamName (n : Nat) : String :=
  String.mk (Nat.toDigits 16 n)

/-- Model of the correlation loop body of `DestList::from_reader` for one
entry: walk the stream listing; on a stream whose name matches the entry
number's lowercase-hexadecimal form, open it (an open failure prints the
error and continues, leaving the current attachment) and set the attachment
to the external decode's result (`process_lnk` stores `None` on a decode
failure). -/
def correlateLnk {Lnk : Type} (ext : Ext Lnk) (ops : String → Option (List Byte))
    (num : Nat) : List CfbEntry → Option Lnk → Option Lnk
  | [], cur => cur
  | c :: rest, cur =>
    if entryStreamName num = c.name then
      match ops c.path with
      | some bytes => correlateLnk ext ops num rest (ext.parseLnkBuffer bytes)
      | none => correlateLnk ext ops num rest cur
    else
      correlateLnk ext ops num rest cur

/-- Correlation applied to a decoded entry (the source mutates `entry.lnk`
in place). -/
def correlateEntry {Lnk : Type} (ext : Ext Lnk) (ls : List CfbEntry)
    (ops : String → Option (List Byte)) (e : DestListEntry Lnk) : DestListEntry Lnk :=
  { e with lnk := correlateLnk ext ops e.entry_number ls e.lnk }

/-- Model of the entry loop of `DestList::from_reader`: decode entries one
after another, correlating each against the stream listing when one was
supplied, and stop at the first entry that fails to decode.  `fuel` bounds
the iteration count; the callers pass `data.length + 1`, which
`destListLoop_fuel` proves is never exhausted. -/
def destListLoop {Lnk : Type} (ext : Ext Lnk) (lnks : Option (List CfbEntry))
    (ops : String → Option (List Byte)) (version : Nat) :
    Nat → RState → List (DestListEntry Lnk)
  | 0, _ => []
  | fuel + 1, s =>
    match lnks with
    | some ls =>
      match DestListEntry.from_reader version s with
      | .ok (e, s') =>
        correlateEntry ext ls ops e :: destListLoop ext lnks ops version fuel s'
      | .error _ => []
    | none =>
      match DestListEntry.from_reader version s with
      | .ok (e, s') => e :: destListLoop ext lnks ops version fuel s'
      | .error _ => []

/-- Model of the `dlist_size` computation of `DestList::from_reader`: the
length of the last stream named `DestList` in the listing, 0 when the listing
is absent or has no such stream. -/
def destListSize (lnks : Option (List CfbEntry)) : Nat :=
  match lnks with
  | some entries => entries.foldl (fun size e => if e.name = "DestList" then e.len else size) 0
  | none => 0

/-- Stable insertion of an entry into a list sorted by `entry_number`
descending: the entry goes in front of the first element whose
`entry_number` is not larger.  Together with `sortEntries` this models
`Vec::sort_by` (a stable sort) with the comparator
`b.entry_number.cmp(&a.entry_number)`. -/
def insertDesc {Lnk : Type} (e : DestListEntry Lnk) :
    List (DestListEntry Lnk) → List (DestListEntry Lnk)
  | [] => [e]
  | x :: xs => if x.entry_number ≤ e.entry_number then e :: x :: xs else x :: insertDesc e xs

/-- Stable sort by `entry_number` descending (see `insertDesc`): the unique
permutation that is sorted under the source's comparator and keeps the
relative order of entries with equal `entry_number`. -/
def sortEntries {Lnk : Type} : List (DestListEntry Lnk) → List (DestListEntry Lnk)
  | [] => []
  | x :: xs => insertDesc x (sortEntries xs)

/-- Model of `DestList::from_reader`: when no stream in the listing is named
`DestList` or that stream has zero length, synthesize a zero-valued header,
otherwise decode the header from the reader (the only failure the call can
propagate); then run the entry loop until an entry fails to decode, and sort
the accumulated entries by `entry_number` descending. -/
def DestList.from_reader {Lnk : Type} (ext : Ext Lnk) (lnks : Option (List CfbEntry))
    (ops : String → Option (List Byte)) (s : RState) :
    Except JumplistParserError (DestList Lnk) :=
  match (if destListSize lnks = 0 then
          .ok ({ version := 0, number_of_entries := 0, number_of_pinned_entries := 0 }, s)
         else DestListHeader.from_reader s :
         Except JumplistParserError (DestListHeader × RState)) with
  | .error e => .error e
  | .ok (header, s₁) =>
    .ok { header := header,
          entries := sortEntries
            (destListLoop ext lnks ops header.version (s₁.data.length + 1) s₁) }

/-- The entry list `DestList::from_reader` accumulates before its final sort:
the decoded, correlated entries in decode order. -/
def DestList.decodedInOrder {Lnk : Type} (ext : Ext Lnk) (lnks : Option (List CfbEntry))
    (ops : String → Option (List Byte)) (s : RState) : List (DestListEntry Lnk) :=
  match (if destListSize lnks = 0 then
          .ok ({ version := 0, number_of_entries := 0, number_of_pinned_entries := 0 }, s)
         else DestListHeader.from_reader s :
         Except JumplistParserError (DestListHeader × RState)) with
  | .error _ => []
  | .ok (header, s₁) => destListLoop ext lnks ops header.version (s₁.data.length + 1) s₁

/-! ## Normalization layer (`impl Normalize` / `impl _Normalize` in
`src/destlist.rs`, `impl Flaten` in `src/custom_destinations.rs`).  The
`HashMap<String, String>` values are modelled as association lists;
`alInsert` models `HashMap::insert` (replacing any earlier binding) and
`alGet` the lookup. -/

/-- Model of `HashMap::insert`: bind `k` to `v`, replacing any earlier
binding of `k`. -/
def alInsert (k v : String) (m : List (String × String)) : List (String × String) :=
  (k, v) :: m.filter (fun p => p.1 ≠ k)

/-- Map lookup on the association-list model. -/
def alGet (k : String) (m : List (String × String)) : Option String :=
  (m.find? (fun p => p.1 = k)).map (·.2)

/-- The mapping built from one LNK record, shared by both normalizers: the
external decoder's own normalized fields plus `name_string` and
`command_line_arguments`, each the accessor's value or the empty string when
the record lacks the field. -/
def mkLnkMap {Lnk : Type} (ext : Ext Lnk) (l : Lnk) : List (String × String) :=
  alInsert "command_line_arguments" ((ext.getCommandLineArguments l).getD "")
    (alInsert "name_string" ((ext.getNameString l).getD "") (ext.normalizeLnk l))

/-- Model of `Normalize for DestListEntry`: the attached LNK record's mapping,
or the empty mapping when no LNK record is attached. -/
def DestListEntry.normalize {Lnk : Type} (ext : Ext Lnk) (e : DestListEntry Lnk) :
    List (String × String) :=
  match e.lnk with
  | some l => mkLnkMap ext l
  | none => []

/-- Model of `_Normalize for DestList`: one mapping per entry, in entry
order. -/
def DestList.normalize {Lnk : Type} (ext : Ext Lnk) (dl : DestList Lnk) :
    List (List (String × String)) :=
  dl.entries.map (DestListEntry.normalize ext)

/-- Model of `Flaten for CustomDestinations`: one mapping per embedded LNK
record, in category then entry order; categories whose `entries` field is
absent contribute nothing. -/
def CustomDestinations.flaten {Lnk : Type} (ext : Ext Lnk) (cd : CustomDestinations Lnk) :
    List (List (String × String)) :=
  cd.entries.flatMap fun cat =>
    match cat.entries with
    | some lnks => lnks.map (mkLnkMap ext)
    | none => []

/-! ## Top level (`src/lib.rs`) -/

/-- Model of the `cfb::CompoundFile` the top level opens: its walked entry
listing and its `open_stream` operation (keyed by path, returning the
stream's full contents; `None` models an open or read failure). -/
structure Cfb where
  entries : List CfbEntry
  openStream : String → Option (List Byte)

/-- Model of `JumplistType`. -/
inductive JumplistType where
  | Automatic
  | Custom
deriving DecidableEq

/-- Model of `JumplistData`. -/
inductive JumplistData (Lnk : Type) where
  | DestList (d : Jumplist.DestList Lnk)
  | CustomDestinations (c : Jumplist.CustomDestinations Lnk)
deriving DecidableEq

/-- Model of the `JumplistParser` record. -/
structure JumplistParser (Lnk : Type) where
  app_id : Option String
  app_name : Option String
  type : JumplistType
  source_path : Option String
  data : JumplistData Lnk
deriving DecidableEq

/-- Model of the `destlist_data` accumulation in the `Automatic` branch of
`JumplistParser::from_reader`: starting from an empty buffer, each listing
entry named `DestList` with positive length replaces the buffer with the
opened stream's contents; the source `unwrap`s the open and the read, so a
failure panics. -/
def destListData (cfb : Cfb) : POutcome (List Byte) :=
  cfb.entries.foldl
    (fun acc e =>
      match acc with
      | .panicked m => .panicked m
      | _ =>
        if e.name = "DestList" ∧ 0 < e.len then
          match cfb.openStream "DestList" with
          | some bytes => .ok bytes
          | none => .panicked unwrapPanicMsg
        else acc)
    (.ok [])

/-- Model of `JumplistParser::from_reader`.  `cfbOpen` is the opaque
`CompoundFile::open`; a `DestList::from_reader` failure is printed and turned
into a `NoDestList` error. -/
def JumplistParser.from_reader {Lnk : Type} (ext : Ext Lnk)
    (cfbOpen : List Byte → Option Cfb) (r : List Byte) (jumplist_type : JumplistType) :
    POutcome (JumplistParser Lnk) :=
  match jumplist_type with
  | .Automatic =>
    match cfbOpen r with
    | none => .error (.FileStructure "Unable to parse the file")
    | some cfb =>
      match destListData cfb with
      | .panicked m => .panicked m
      | .error e => .error e
      | .ok dlBytes =>
        match DestList.from_reader ext (some cfb.entries) cfb.openStream
            { data := dlBytes, pos := 0 } with
        | .ok dlist =>
          .ok { app_id := none, app_name := none, source_path := none,
                type := jumplist_type, data := .DestList dlist }
        | .error _ =>
          .error (.NoDestList "No entry with the name 'DestList' (Empty JumpList)")
  | .Custom =>
    match CustomDestinations.from_reader ext { data := r, pos := 0 } with
    | .error e => .error e
    | .panicked m => .panicked m
    | .ok results =>
      .ok { app_id := none, app_name := none, source_path := none,
            type := jumplist_type, data := .CustomDestinations results }

/-- Split of a character list at every occurrence of `c`, as Rust's
`split(c)` and `String::splitOn` behave: never empty, keeps empty pieces. -/
def splitOnChar (c : Char) : List Char → List (List Char)
  | [] => [[]]
  | x :: xs =>
    match splitOnChar c xs with
    | [] => [[]]
    | h :: t => if x = c then [] :: h :: t else (x :: h) :: t

/-- Model of Rust `str::ends_with`. -/
def strEndsWith (s suffix : String) : Bool :=
  suffix.data.isSuffixOf s.data

/-- Model of `Path::file_name().unwrap_or_default().to_string_lossy()` for
`/`-separated paths: the last path component (the empty string for a path
with no usable final component). -/
def fileNameOf (p : String) : String :=
  String.mk ((splitOnChar '/' p.data).getLastD [])

/-- The filename stem the source computes: everything before the first `.`
(`file_name.split('.').next()`, which always yields at least one piece). -/
def stemOf (file_name : String) : String :=
  String.mk ((splitOnChar '.' file_name.data).headD [])

/-- Model of `JumplistParser::from_path`.  `readFileFn` stands for opening and
reading the file; `appidToName` is modelled from the spec: the
application-id-to-friendly-name lookup table (`appids.rs`, whose code is not
among the repository's files).  On success the source fills `app_id` with the
filename stem, `app_name` with the looked-up name or the empty string, and
`source_path` with the input path. -/
def JumplistParser.from_path {Lnk : Type} (ext : Ext Lnk)
    (cfbOpen : List Byte → Option Cfb) (readFileFn : String → Option (List Byte))
    (appidToName : String → Option String) (path : String) :
    POutcome (JumplistParser Lnk) :=
  match readFileFn path with
  | none => .error (.JumplistParser ("Can't open the file '" ++ path ++ "'"))
  | some buffer =>
    let file_name := fileNameOf path
    match (if strEndsWith file_name ".automaticDestinations-ms" then
            some JumplistType.Automatic
           else if strEndsWith file_name ".customDestinations-ms" then
            some JumplistType.Custom
           else none) with
    | none => .error (.FileType file_name)
    | some jumplist_type =>
      let app_id := stemOf file_name
      let app_name := (appidToName (stemOf file_name)).getD ""
      match JumplistParser.from_reader ext cfbOpen buffer jumplist_type with
      | .ok parsed =>
        .ok { parsed with
               app_id := some app_id
               app_name := some app_name
               source_path := some path }
      | .error e => .error e
      | .panicked m => .panicked m

/-! ## Basic lemmas about the primitive reads -/

/-- The same stream with extra bytes appended past the end of the data. -/
def appendData (extra : List Byte) (s : RState) : RState :=
  { data := s.data ++ extra, pos := s.pos }

theorem readBytes_ok {n : Nat} {s : RState} {bs : List Byte} {t : RState}
    (h : readBytes n s = some (bs, t)) :
    s.pos + n ≤ s.data.length ∧ bs = (s.data.drop s.pos).take n ∧
      t = { data := s.data, pos := s.pos + n } := by
  unfold readBytes at h
  split at h
  · cases h
    exact ⟨by assumption, rfl, rfl⟩
  · cases h

theorem readBytes_append {n : Nat} {s : RState} {bs : List Byte} {t : RState}
    (extra : List Byte) (h : readBytes n s = some (bs, t)) :
    readBytes n (appendData extra s) = some (bs, appendData extra t) := by
  obtain ⟨hle, hbs, ht⟩ := readBytes_ok h
  unfold readBytes appendData
  have hlen : s.pos + n ≤ (s.data ++ extra).length := by
    simp only [List.length_append]; omega
  rw [if_pos hlen]
  have hdrop : (s.data ++ extra).drop s.pos = s.data.drop s.pos ++ extra :=
    List.drop_append_of_le_length (by omega)
  have htake : (s.data.drop s.pos ++ extra).take n = (s.data.drop s.pos).take n :=
    List.take_append_of_le_length (by simp; omega)
  subst ht hbs
  simp [hdrop, htake]

theorem readU16_ok {s : RState} {v : Nat} {t : RState} (h : readU16 s = some (v, t)) :
    s.pos + 2 ≤ s.data.length ∧ v = leVal ((s.data.drop s.pos).take 2) ∧
      t = { data := s.data, pos := s.pos + 2 } := by
  unfold readU16 at h
  cases hb : readBytes 2 s with
  | none => rw [hb] at h; cases h
  | some p =>
    rw [hb] at h
    cases h
    obtain ⟨h1, h2, h3⟩ := readBytes_ok hb
    exact ⟨h1, by rw [h2], h3⟩

theorem readU32_ok {s : RState} {v : Nat} {t : RState} (h : readU32 s = some (v, t)) :
    s.pos + 4 ≤ s.data.length ∧ v = leVal ((s.data.drop s.pos).take 4) ∧
      t = { data := s.data, pos := s.pos + 4 } := by
  unfold readU32 at h
  cases hb : readBytes 4 s with
  | none => rw [hb] at h; cases h
  | some p =>
    rw [hb] at h
    cases h
    obtain ⟨h1, h2, h3⟩ := readBytes_ok hb
    exact ⟨h1, by rw [h2], h3⟩

theorem readU64_ok {s : RState} {v : Nat} {t : RState} (h : readU64 s = some (v, t)) :
    s.pos + 8 ≤ s.data.length ∧ t = { data := s.data, pos := s.pos + 8 } := by
  unfold readU64 at h
  cases hb : readBytes 8 s with
  | none => rw [hb] at h; cases h
  | some p =>
    rw [hb] at h
    cases h
    obtain ⟨h1, _, h3⟩ := readBytes_ok hb
    exact ⟨h1, h3⟩

theorem readI32_ok {s : RState} {v : Int} {t : RState} (h : readI32 s = some (v, t)) :
    s.pos + 4 ≤ s.data.length ∧ t = { data := s.data, pos := s.pos + 4 } := by
  unfold readI32 at h
  cases hb : readBytes 4 s with
  | none => rw [hb] at h; cases h
  | some p =>
    rw [hb] at h
    cases h
    obtain ⟨h1, _, h3⟩ := readBytes_ok hb
    exact ⟨h1, h3⟩

theorem readUtf16_ok {n : Nat} {s : RState} {u : List Nat} {t : RState}
    (h : readUtf16 n s = some (u, t)) :
    s.pos + 2 * n ≤ s.data.length ∧ t = { data := s.data, pos := s.pos + 2 * n } := by
  unfold readUtf16 at h
  cases hb : readBytes (2 * n) s with
  | none => rw [hb] at h; cases h
  | some p =>
    rw [hb] at h
    cases h
    obtain ⟨h1, _, h3⟩ := readBytes_ok hb
    exact ⟨h1, h3⟩

theorem readUtf8Fixed_ok {n : Nat} {s : RState} {u : List Byte} {t : RState}
    (h : readUtf8Fixed n s = some (u, t)) :
    s.pos + n ≤ s.data.length ∧ t = { data := s.data, pos := s.pos + n } := by
  unfold readUtf8Fixed at h
  cases hb : readBytes n s with
  | none => rw [hb] at h; cases h
  | some p =>
    rw [hb] at h
    cases h
    obtain ⟨h1, _, h3⟩ := readBytes_ok hb
    exact ⟨h1, h3⟩

theorem guid_from_reader_ok {s : RState} {g : Guid} {t : RState}
    (h : Guid.from_reader s = some (g, t)) :
    s.pos + 16 ≤ s.data.length ∧ t = { data := s.data, pos := s.pos + 16 } := by
  unfold Guid.from_reader at h
  cases hb : readBytes 16 s with
  | none => rw [hb] at h; cases h
  | some p =>
    rw [hb] at h
    cases h
    obtain ⟨h1, _, h3⟩ := readBytes_ok hb
    exact ⟨h1, h3⟩

theorem readU16_append {s : RState} {v : Nat} {t : RState} (extra : List Byte)
    (h : readU16 s = some (v, t)) :
    readU16 (appendData extra s) = some (v, appendData extra t) := by
  unfold readU16 at h ⊢
  cases hb : readBytes 2 s with
  | none => rw [hb] at h; cases h
  | some p =>
    rw [hb] at h
    cases h
    rw [readBytes_append extra hb]
    rfl

theorem readU32_append {s : RState} {v : Nat} {t : RState} (extra : List Byte)
    (h : readU32 s = some (v, t)) :
    readU32 (appendData extra s) = some (v, appendData extra t) := by
  unfold readU32 at h ⊢
  cases hb : readBytes 4 s with
  | none => rw [hb] at h; cases h
  | some p =>
    rw [hb] at h
    cases h
    rw [readBytes_append extra hb]
    rfl

theorem readU64_append {s : RState} {v : Nat} {t : RState} (extra : List Byte)
    (h : readU64 s = some (v, t)) :
    readU64 (appendData extra s) = some (v, appendData extra t) := by
  unfold readU64 at h ⊢
  cases hb : readBytes 8 s with
  | none => rw [hb] at h; cases h
  | some p =>
    rw [hb] at h
    cases h
    rw [readBytes_append extra hb]
    rfl

theorem readI32_append {s : RState} {v : Int} {t : RState} (extra : List Byte)
    (h : readI32 s = some (v, t)) :
    readI32 (appendData extra s) = some (v, appendData extra t) := by
  unfold readI32 at h ⊢
  cases hb : readBytes 4 s with
  | none => rw [hb] at h; cases h
  | some p =>
    rw [hb] at h
    cases h
    rw [readBytes_append extra hb]
    rfl

theorem readUtf16_append {n : Nat} {s : RState} {u : List Nat} {t : RState}
    (extra : List Byte) (h : readUtf16 n s = some (u, t)) :
    readUtf16 n (appendData extra s) = some (u, appendData extra t) := by
  unfold readUtf16 at h ⊢
  cases hb : readBytes (2 * n) s with
  | none => rw [hb] at h; cases h
  | some p =>
    rw [hb] at h
    cases h
    rw [readBytes_append extra hb]
    rfl

theorem readUtf8Fixed_append {n : Nat} {s : RState} {u : List Byte} {t : RState}
    (extra : List Byte) (h : readUtf8Fixed n s = some (u, t)) :
    readUtf8Fixed n (appendData extra s) = some (u, appendData extra t) := by
  unfold readUtf8Fixed at h ⊢
  cases hb : readBytes n s with
  | none => rw [hb] at h; cases h
  | some p =>
    rw [hb] at h
    cases h
    rw [readBytes_append extra hb]
    rfl

theorem guid_from_reader_append {s : RState} {g : Guid} {t : RState}
    (extra : List Byte) (h : Guid.from_reader s = some (g, t)) :
    Guid.from_reader (appendData extra s) = some (g, appendData extra t) := by
  unfold Guid.from_reader at h ⊢
  cases hb : readBytes 16 s with
  | none => rw [hb] at h; cases h
  | some p =>
    rw [hb] at h
    cases h
    rw [readBytes_append extra hb]
    rfl

theorem seekCur_append (n : Nat) (extra : List Byte) (s : RState) :
    seekCur n (appendData extra s) = appendData extra (seekCur n s) := rfl



theorem seekCur_data (n : Nat) (s : RState) : (seekCur n s).data = s.data := rfl

theorem seekCur_pos (n : Nat) (s : RState) : (seekCur n s).pos = s.pos + n := rfl

/-- Characterization of a successful `DestListEntry::from_reader` call: the
data is untouched, the start position lies at least 24 bytes before the end
of the data (the first GUID read must succeed), the final position advances
by at least 114 bytes, the decoded entry has no LNK record attached, and its
`pined` flag is false exactly when the u32 pin sentinel at offset 108 from
the entry start is `0xFFFFFFFF`. -/
theorem entry_ok_spec {Lnk : Type} {version : Nat} {s : RState} {e : DestListEntry Lnk}
    {t : RState} (h : DestListEntry.from_reader version s = .ok (e, t)) :
    t.data = s.data ∧ s.pos + 24 ≤ s.data.length ∧ s.pos + 114 ≤ t.pos ∧
    e.lnk = none ∧
    e.pined = (if leVal ((s.data.drop (s.pos + 108)).take 4) = 0xffffffff
               then false else true) := by
  simp only [DestListEntry.from_reader] at h
  cases hg1 : Guid.from_reader (seekCur 8 s) with
  | none => simp only [hg1] at h; cases h
  | some p1 =>
  obtain ⟨g1, s1⟩ := p1
  simp only [hg1] at h
  obtain ⟨hb1, hs1⟩ := guid_from_reader_ok hg1
  have hd1 : s1.data = s.data := by rw [hs1]; rfl
  have hp1 : s1.pos = s.pos + 8 + 16 := by rw [hs1]; rfl
  have hlen : s.pos + 24 ≤ s.data.length := by
    rw [seekCur_pos, seekCur_data] at hb1; omega
  cases hg2 : Guid.from_reader s1 with
  | none => simp only [hg2] at h; cases h
  | some p2 =>
  obtain ⟨g2, s2⟩ := p2
  simp only [hg2] at h
  obtain ⟨_, hs2⟩ := guid_from_reader_ok hg2
  have hd2 : s2.data = s.data := by rw [hs2]; exact hd1
  have hp2 : s2.pos = s1.pos + 16 := by rw [hs2]
  cases hg3 : Guid.from_reader s2 with
  | none => simp only [hg3] at h; cases h
  | some p3 =>
  obtain ⟨g3, s3⟩ := p3
  simp only [hg3] at h
  obtain ⟨_, hs3⟩ := guid_from_reader_ok hg3
  have hd3 : s3.data = s.data := by rw [hs3]; exact hd2
  have hp3 : s3.pos = s2.pos + 16 := by rw [hs3]
  cases hg4 : Guid.from_reader s3 with
  | none => simp only [hg4] at h; cases h
  | some p4 =>
  obtain ⟨g4, s4⟩ := p4
  simp only [hg4] at h
  obtain ⟨_, hs4⟩ := guid_from_reader_ok hg4
  have hd4 : s4.data = s.data := by rw [hs4]; exact hd3
  have hp4 : s4.pos = s3.pos + 16 := by rw [hs4]
  cases hu8 : readUtf8Fixed 16 s4 with
  | none => simp only [hu8] at h; cases h
  | some p5 =>
  obtain ⟨hostname, s5⟩ := p5
  simp only [hu8] at h
  obtain ⟨_, hs5⟩ := readUtf8Fixed_ok hu8
  have hd5 : s5.data = s.data := by rw [hs5]; exact hd4
  have hp5 : s5.pos = s4.pos + 16 := by rw [hs5]
  cases hnum : readU32 s5 with
  | none => simp only [hnum] at h; cases h
  | some p6 =>
  obtain ⟨entry_number, s6⟩ := p6
  simp only [hnum] at h
  obtain ⟨_, _, hs6⟩ := readU32_ok hnum
  have hd6 : s6.data = s.data := by rw [hs6]; exact hd5
  have hp6 : s6.pos = s5.pos + 4 := by rw [hs6]
  cases hm : readU64 (seekCur 8 s6) with
  | none => simp only [hm] at h; cases h
  | some p7 =>
  obtain ⟨mtimeRaw, s8⟩ := p7
  simp only [hm] at h
  obtain ⟨_, hs8⟩ := readU64_ok hm
  have hd8 : s8.data = s.data := by rw [hs8]; exact hd6
  have hp8 : s8.pos = s6.pos + 8 + 8 := by rw [hs8]; rfl
  cases hpin : readU32 s8 with
  | none => simp only [hpin] at h; cases h
  | some p8 =>
  obtain ⟨pinRaw, s9⟩ := p8
  simp only [hpin] at h
  obtain ⟨_, hpinval, hs9⟩ := readU32_ok hpin
  have hd9 : s9.data = s.data := by rw [hs9]; exact hd8
  have hp9 : s9.pos = s8.pos + 4 := by rw [hs9]
  set s10 := (if version > 1 then seekCur 16 s9 else s9) with hs10def
  have hd10 : s10.data = s.data := by rw [hs10def]; split <;> exact hd9
  have hp10 : s9.pos ≤ s10.pos ∧ s10.pos ≤ s9.pos + 16 := by
    rw [hs10def]; split
    · exact ⟨Nat.le_add_right _ _, Nat.le.refl⟩
    · exact ⟨Nat.le.refl, Nat.le_add_right _ _⟩
  cases hps : readU16 s10 with
  | none => simp only [hps] at h; cases h
  | some p9 =>
  obtain ⟨path_size, s11⟩ := p9
  simp only [hps] at h
  obtain ⟨_, _, hs11⟩ := readU16_ok hps
  have hd11 : s11.data = s.data := by rw [hs11]; exact hd10
  have hp11 : s11.pos = s10.pos + 2 := by rw [hs11]
  cases hpath : readUtf16 path_size s11 with
  | none => simp only [hpath] at h; cases h
  | some p10 =>
  obtain ⟨path, s12⟩ := p10
  simp only [hpath] at h
  obtain ⟨_, hs12⟩ := readUtf16_ok hpath
  have hd12 : s12.data = s.data := by rw [hs12]; exact hd11
  have hp12 : s12.pos = s11.pos + 2 * path_size := by rw [hs12]
  injection h with h1
  injection h1 with he ht
  have htd : t.data = s.data := by rw [← ht]; split <;> exact hd12
  have htp : s.pos + 114 ≤ t.pos := by
    rw [← ht]
    split
    · rw [seekCur_pos]; omega
    · omega
  have hpv : pinRaw = leVal ((s.data.drop (s.pos + 108)).take 4) := by
    rw [hpinval, hd8]
    have hq : s8.pos = s.pos + 108 := by omega
    rw [hq]
  refine ⟨htd, hlen, htp, by rw [← he], ?_⟩
  rw [← he]
  simp only [hpv]


/-- A successful `DestListEntry::from_reader` call reads the same entry from
the same position when extra bytes are appended past the end of the data:
entry decoding never inspects bytes beyond those it consumes. -/
theorem destListEntryFromReader_append {Lnk : Type} {version : Nat} {s : RState}
    {e : DestListEntry Lnk} {t : RState} (extra : List Byte)
    (h : DestListEntry.from_reader version s = .ok (e, t)) :
    DestListEntry.from_reader version (appendData extra s) = .ok (e, appendData extra t) := by
  simp only [DestListEntry.from_reader] at h ⊢
  rw [seekCur_append]
  cases hg1 : Guid.from_reader (seekCur 8 s) with
  | none => simp only [hg1] at h; cases h
  | some p1 =>
  obtain ⟨g1, s1⟩ := p1
  simp only [hg1] at h
  simp only [guid_from_reader_append extra hg1]
  cases hg2 : Guid.from_reader s1 with
  | none => simp only [hg2] at h; cases h
  | some p2 =>
  obtain ⟨g2, s2⟩ := p2
  simp only [hg2] at h
  simp only [guid_from_reader_append extra hg2]
  cases hg3 : Guid.from_reader s2 with
  | none => simp only [hg3] at h; cases h
  | some p3 =>
  obtain ⟨g3, s3⟩ := p3
  simp only [hg3] at h
  simp only [guid_from_reader_append extra hg3]
  cases hg4 : Guid.from_reader s3 with
  | none => simp only [hg4] at h; cases h
  | some p4 =>
  obtain ⟨g4, s4⟩ := p4
  simp only [hg4] at h
  simp only [guid_from_reader_append extra hg4]
  cases hu8 : readUtf8Fixed 16 s4 with
  | none => simp only [hu8] at h; cases h
  | some p5 =>
  obtain ⟨hostname, s5⟩ := p5
  simp only [hu8] at h
  simp only [readUtf8Fixed_append extra hu8]
  cases hnum : readU32 s5 with
  | none => simp only [hnum] at h; cases h
  | some p6 =>
  obtain ⟨entry_number, s6⟩ := p6
  simp only [hnum] at h
  simp only [readU32_append extra hnum]
  rw [seekCur_append]
  cases hm : readU64 (seekCur 8 s6) with
  | none => simp only [hm] at h; cases h
  | some p7 =>
  obtain ⟨mtimeRaw, s8⟩ := p7
  simp only [hm] at h
  simp only [readU64_append extra hm]
  cases hpin : readU32 s8 with
  | none => simp only [hpin] at h; cases h
  | some p8 =>
  obtain ⟨pinRaw, s9⟩ := p8
  simp only [hpin] at h
  simp only [readU32_append extra hpin]
  by_cases hv : version > 1
  · simp only [if_pos hv] at h ⊢
    rw [seekCur_append]
    cases hps : readU16 (seekCur 16 s9) with
    | none => simp only [hps] at h; cases h
    | some p9 =>
    obtain ⟨path_size, s11⟩ := p9
    simp only [hps] at h
    simp only [readU16_append extra hps]
    cases hpath : readUtf16 path_size s11 with
    | none => simp only [hpath] at h; cases h
    | some p10 =>
    obtain ⟨path, s12⟩ := p10
    simp only [hpath] at h
    simp only [readUtf16_append extra hpath]
    injection h with h1
    injection h1 with he ht
    rw [seekCur_append, he, ht]
  · simp only [if_neg hv] at h ⊢
    cases hps : readU16 s9 with
    | none => simp only [hps] at h; cases h
    | some p9 =>
    obtain ⟨path_size, s11⟩ := p9
    simp only [hps] at h
    simp only [readU16_append extra hps]
    cases hpath : readUtf16 path_size s11 with
    | none => simp only [hpath] at h; cases h
    | some p10 =>
    obtain ⟨path, s12⟩ := p10
    simp only [hpath] at h
    simp only [readUtf16_append extra hpath]
    injection h with h1
    injection h1 with he ht
    rw [he, ht]

/-- The entry loop with no fuel yields nothing. -/
theorem destListLoop_zero {Lnk : Type} (ext : Ext Lnk) (lnks : Option (List CfbEntry))
    (ops : String → Option (List Byte)) (version : Nat) (s : RState) :
    destListLoop ext lnks ops version 0 s = [] := rfl

/-- One unfolding step of the entry loop on a successful entry decode. -/
theorem destListLoop_ok {Lnk : Type} {ext : Ext Lnk} {lnks : Option (List CfbEntry)}
    {ops : String → Option (List Byte)} {version : Nat} {s s' : RState}
    {e : DestListEntry Lnk} (f : Nat)
    (he : DestListEntry.from_reader version s = .ok (e, s')) :
    destListLoop ext lnks ops version (f + 1) s =
      (match lnks with
       | some ls => correlateEntry ext ls ops e
       | none => e) :: destListLoop ext lnks ops version f s' := by
  cases lnks <;> simp only [destListLoop, he]

/-- One unfolding step of the entry loop on a failed entry decode. -/
theorem destListLoop_err {Lnk : Type} {ext : Ext Lnk} {lnks : Option (List CfbEntry)}
    {ops : String → Option (List Byte)} {version : Nat} {s : RState}
    {err : JumplistParserError} (f : Nat)
    (he : @DestListEntry.from_reader Lnk version s = .error err) :
    destListLoop ext lnks ops version (f + 1) s = [] := by
  cases lnks <;> simp only [destListLoop, he]



/-- The entry loop's result does not depend on the fuel once the fuel covers
the remaining data: each decoded entry consumes at least 114 bytes, so
`data.length + 1` iterations are never exhausted. -/
theorem destListLoop_congr {Lnk : Type} (ext : Ext Lnk) (lnks : Option (List CfbEntry))
    (ops : String → Option (List Byte)) (version : Nat) :
    ∀ (f₁ f₂ : Nat) (s : RState), s.data.length + 1 ≤ f₁ + s.pos →
      s.data.length + 1 ≤ f₂ + s.pos →
      destListLoop ext lnks ops version f₁ s = destListLoop ext lnks ops version f₂ s := by
  intro f₁
  induction f₁ with
  | zero =>
    intro f₂ s h1 h2
    cases f₂ with
    | zero => rfl
    | succ f =>
      cases he : @DestListEntry.from_reader Lnk version s with
      | error err => rw [destListLoop_zero, destListLoop_err f he]
      | ok p =>
        obtain ⟨hd, hb, hp, _, _⟩ := @entry_ok_spec _ _ _ p.1 p.2 (by rw [he])
        omega
  | succ f₁ ih =>
    intro f₂ s h1 h2
    cases f₂ with
    | zero =>
      cases he : @DestListEntry.from_reader Lnk version s with
      | error err => rw [destListLoop_zero, destListLoop_err f₁ he]
      | ok p =>
        obtain ⟨hd, hb, hp, _, _⟩ := @entry_ok_spec _ _ _ p.1 p.2 (by rw [he])
        omega
    | succ f₂ =>
      cases he : @DestListEntry.from_reader Lnk version s with
      | error err => rw [destListLoop_err f₁ he, destListLoop_err f₂ he]
      | ok p =>
        obtain ⟨e, s'⟩ := p
        obtain ⟨hd, hb, hp, _, _⟩ := entry_ok_spec he
        rw [destListLoop_ok f₁ he, destListLoop_ok f₂ he,
          ih f₂ s' (by rw [hd]; omega) (by rw [hd]; omega)]

/-- Entries decoded from a stream are a prefix of the entries decoded from
the same stream with extra bytes appended past the end of its data. -/
theorem destListLoop_append {Lnk : Type} (ext : Ext Lnk) (lnks : Option (List CfbEntry))
    (ops : String → Option (List Byte)) (version : Nat) (extra : List Byte) :
    ∀ (f : Nat) (s : RState), ∃ rest,
      destListLoop ext lnks ops version f s ++ rest =
        destListLoop ext lnks ops version f (appendData extra s) := by
  intro f
  induction f with
  | zero => intro s; exact ⟨[], rfl⟩
  | succ f ih =>
    intro s
    cases he : @DestListEntry.from_reader Lnk version s with
    | error err =>
      exact ⟨destListLoop ext lnks ops version (f + 1) (appendData extra s),
        by rw [destListLoop_err f he]; rfl⟩
    | ok p =>
      obtain ⟨e, s'⟩ := p
      obtain ⟨rest, hrest⟩ := ih s'
      refine ⟨rest, ?_⟩
      rw [destListLoop_ok f he, destListLoop_ok f (destListEntryFromReader_append extra he)]
      cases lnks <;> simp only [List.cons_append, hrest]



/-- Membership in a stable insertion. -/
theorem mem_insertDesc {Lnk : Type} {y e : DestListEntry Lnk} {l : List (DestListEntry Lnk)} :
    y ∈ insertDesc e l ↔ y = e ∨ y ∈ l := by
  induction l with
  | nil => simp [insertDesc]
  | cons x xs ih =>
    simp only [insertDesc]
    split
    · simp [List.mem_cons]
    · simp only [List.mem_cons, ih]
      tauto

/-- Stable insertion preserves descending sortedness by `entry_number`. -/
theorem insertDesc_pairwise {Lnk : Type} (e : DestListEntry Lnk)
    {l : List (DestListEntry Lnk)}
    (h : List.Pairwise (fun a b => b.entry_number ≤ a.entry_number) l) :
    List.Pairwise (fun a b => b.entry_number ≤ a.entry_number) (insertDesc e l) := by
  induction l with
  | nil => simp [insertDesc]
  | cons x xs ih =>
    obtain ⟨hx, hxs⟩ := List.pairwise_cons.mp h
    simp only [insertDesc]
    split
    · refine List.pairwise_cons.mpr ⟨?_, h⟩
      intro y hy
      rcases List.mem_cons.mp hy with hyx | hyxs
      · subst hyx; omega
      · have := hx y hyxs; omega
    · refine List.pairwise_cons.mpr ⟨?_, ih hxs⟩
      intro y hy
      rcases mem_insertDesc.mp hy with hye | hyxs
      · subst hye; omega
      · exact hx y hyxs

/-- The sorted entry list is pairwise descending by `entry_number`. -/
theorem sortEntries_pairwise {Lnk : Type} (l : List (DestListEntry Lnk)) :
    List.Pairwise (fun a b => b.entry_number ≤ a.entry_number) (sortEntries l) := by
  induction l with
  | nil => exact List.Pairwise.nil
  | cons x xs ih => exact insertDesc_pairwise x ih

/-- Entries with a fixed `entry_number` after a stable insertion: the
inserted entry, when it has that number, comes first, ahead of the equal
entries already present. -/
theorem insertDesc_filter {Lnk : Type} (e : DestListEntry Lnk)
    (l : List (DestListEntry Lnk)) (n : Nat) :
    (insertDesc e l).filter (fun x => x.entry_number == n) =
      (if e.entry_number = n then [e] else []) ++
        l.filter (fun x => x.entry_number == n) := by
  induction l with
  | nil => simp [insertDesc, List.filter]; split <;> simp_all
  | cons x xs ih =>
    simp only [insertDesc]
    split
    · by_cases hen : e.entry_number = n <;> by_cases hxn : x.entry_number = n <;>
        simp_all [List.filter_cons]
    · by_cases hen : e.entry_number = n <;> by_cases hxn : x.entry_number = n <;>
        simp_all [List.filter_cons]

/-- Stability of the sort: restricted to any one `entry_number`, the sorted
list keeps the input order. -/
theorem sortEntries_filter {Lnk : Type} (l : List (DestListEntry Lnk)) (n : Nat) :
    (sortEntries l).filter (fun x => x.entry_number == n) =
      l.filter (fun x => x.entry_number == n) := by
  induction l with
  | nil => rfl
  | cons x xs ih =>
    show (insertDesc x (sortEntries xs)).filter _ = _
    rw [insertDesc_filter, ih]
    by_cases hxn : x.entry_number = n <;> simp_all [List.filter_cons]

/-- The sort permutes its input. -/
theorem sortEntries_perm {Lnk : Type} (l : List (DestListEntry Lnk)) :
    (sortEntries l).Perm l := by
  induction l with
  | nil => exact List.Perm.refl []
  | cons x xs ih =>
    show (insertDesc x (sortEntries xs)).Perm (x :: xs)
    have hstep : ∀ (m : List (DestListEntry Lnk)), (insertDesc x m).Perm (x :: m) := by
      intro m
      induction m with
      | nil => exact List.Perm.refl _
      | cons y ys ihy =>
        simp only [insertDesc]
        split
        · exact List.Perm.refl _
        · exact ((ihy.cons y).trans (List.Perm.swap x y ys))
    exact (hstep (sortEntries xs)).trans (ih.cons x)

/-- Membership is unchanged by the sort. -/
theorem mem_sortEntries {Lnk : Type} {y : DestListEntry Lnk} {l : List (DestListEntry Lnk)} :
    y ∈ sortEntries l ↔ y ∈ l :=
  (sortEntries_perm l).mem_iff



/-- The uppercase hexadecimal digit map is injective below 16. -/
theorem hexUpper_inj {m n : Nat} (hm : m < 16) (hn : n < 16)
    (h : hexUpper m = hexUpper n) : m = n := by
  have key : ∀ a b : Fin 16, hexUpper a.val = hexUpper b.val → a = b := by decide
  exact congrArg Fin.val (key ⟨m, hm⟩ ⟨n, hn⟩ h)

/-- Fixed-width rendering has the stated width. -/
theorem natHexFixed_length (d : Nat) : ∀ n, (natHexFixed d n).length = d := by
  induction d with
  | zero => intro n; rfl
  | succ d ih => intro n; simp [natHexFixed, ih]

/-- Fixed-width hexadecimal rendering is injective on values that fit. -/
theorem natHexFixed_inj (d : Nat) : ∀ m n, m < 16 ^ d → n < 16 ^ d →
    natHexFixed d m = natHexFixed d n → m = n := by
  induction d with
  | zero =>
    intro m n hm hn _
    simp only [pow_zero, Nat.lt_one_iff] at hm hn
    omega
  | succ d ih =>
    intro m n hm hn h
    simp only [natHexFixed] at h
    obtain ⟨hpre, hsuf⟩ := List.append_inj h (by rw [natHexFixed_length, natHexFixed_length])
    have hmod : m % 16 = n % 16 := by
      have := List.head_eq_of_cons_eq hsuf
      exact hexUpper_inj (Nat.mod_lt _ (by omega)) (Nat.mod_lt _ (by omega)) this
    have hdiv : m / 16 = n / 16 := by
      refine ih (m / 16) (n / 16) ?_ ?_ hpre
      · rw [Nat.div_lt_iff_lt_mul (by omega)]
        calc m < 16 ^ (d + 1) := hm
        _ = 16 ^ d * 16 := by rw [pow_succ]
      · rw [Nat.div_lt_iff_lt_mul (by omega)]
        calc n < 16 ^ (d + 1) := hn
        _ = 16 ^ d * 16 := by rw [pow_succ]
    calc m = 16 * (m / 16) + m % 16 := (Nat.div_add_mod m 16).symm
    _ = 16 * (n / 16) + n % 16 := by rw [hmod, hdiv]
    _ = n := Nat.div_add_mod n 16

/-- A little-endian byte value is bounded by 256 to the byte count. -/
theorem leVal_lt : ∀ l : List Byte, leVal l < 256 ^ l.length := by
  intro l
  induction l with
  | nil => simp [leVal]
  | cons b rest ih =>
    have hb := b.isLt
    simp only [leVal, List.length_cons, pow_succ]
    have : 256 ^ rest.length * 256 = 256 * 256 ^ rest.length := by ring
    rw [this]
    omega

/-- Equal little-endian values of equal-length byte lists force equal
bytes. -/
theorem leVal_inj : ∀ l₁ l₂ : List Byte, l₁.length = l₂.length →
    leVal l₁ = leVal l₂ → l₁ = l₂ := by
  intro l₁
  induction l₁ with
  | nil =>
    intro l₂ hlen _
    cases l₂ with
    | nil => rfl
    | cons b r => simp at hlen
  | cons b₁ r₁ ih =>
    intro l₂ hlen hv
    cases l₂ with
    | nil => simp at hlen
    | cons b₂ r₂ =>
      simp only [leVal] at hv
      have h1 := b₁.isLt
      have h2 := b₂.isLt
      have hb : b₁.val = b₂.val := by omega
      have hr : leVal r₁ = leVal r₂ := by omega
      have : b₁ = b₂ := Fin.ext hb
      subst this
      rw [ih r₂ (by simpa using hlen) hr]

/-- Byte-pair hexadecimal rendering doubles the length. -/
theorem flatMapHex_length : ∀ l : List Byte,
    (l.flatMap (fun b => natHexFixed 2 b.val)).length = 2 * l.length := by
  intro l
  induction l with
  | nil => rfl
  | cons b r ih => simp [List.flatMap_cons, natHexFixed_length, ih]; omega

/-- Byte-pair hexadecimal rendering is injective on equal-length lists. -/
theorem flatMapHex_inj : ∀ l₁ l₂ : List Byte, l₁.length = l₂.length →
    l₁.flatMap (fun b => natHexFixed 2 b.val) = l₂.flatMap (fun b => natHexFixed 2 b.val) →
    l₁ = l₂ := by
  intro l₁
  induction l₁ with
  | nil =>
    intro l₂ hlen _
    cases l₂ with
    | nil => rfl
    | cons b r => simp at hlen
  | cons b₁ r₁ ih =>
    intro l₂ hlen hv
    cases l₂ with
    | nil => simp at hlen
    | cons b₂ r₂ =>
      simp only [List.flatMap_cons] at hv
      obtain ⟨hpre, hsuf⟩ := List.append_inj hv (by rw [natHexFixed_length, natHexFixed_length])
      have hb : b₁ = b₂ := by
        refine Fin.ext (natHexFixed_inj 2 b₁.val b₂.val ?_ ?_ hpre)
        · have := b₁.isLt; norm_num
        · have := b₂.isLt; norm_num
      subst hb
      rw [ih r₂ (by simpa using hlen) hsuf]



/-- A 16-byte GUID whose canonical rendering equals the shell-link class-id
string is byte-for-byte the class id: rendering is injective at the class
id, so comparing rendered strings compares GUID values. -/
theorem guid_render_classId {g : List Byte} (hlen : g.length = 16)
    (h : (guidOfBytes g).render = classIdStr) : g = classIdBytes := by
  have hchars : (guidOfBytes g).chars = classIdStr.data := congrArg String.data h
  have hsplit : classIdStr.data =
      ['0','0','0','2','1','4','0','1'] ++ '-' :: (['0','0','0','0'] ++ '-'
        :: (['0','0','0','0'] ++ '-' :: (['C','0','0','0'] ++ '-'
          :: ['0','0','0','0','0','0','0','0','0','0','4','6']))) := by rfl
  rw [hsplit] at hchars
  simp only [Guid.chars, guidOfBytes] at hchars
  have htk8 : (g.drop 8).take 8 = g.drop 8 :=
    List.take_of_length_le (by simp [hlen])
  rw [htk8] at hchars
  obtain ⟨hA, hrest⟩ := List.append_inj hchars (by rw [natHexFixed_length]; rfl)
  have hrest := List.tail_eq_of_cons_eq hrest
  obtain ⟨hB, hrest⟩ := List.append_inj hrest (by rw [natHexFixed_length]; rfl)
  have hrest := List.tail_eq_of_cons_eq hrest
  obtain ⟨hC, hrest⟩ := List.append_inj hrest (by rw [natHexFixed_length]; rfl)
  have hrest := List.tail_eq_of_cons_eq hrest
  obtain ⟨hD, hrest⟩ := List.append_inj hrest
    (by rw [flatMapHex_length]; simp [hlen])
  have hE := List.tail_eq_of_cons_eq hrest
  -- Field 1: the first four bytes
  have hv1 : leVal (g.take 4) = 0x00021401 := by
    refine natHexFixed_inj 8 _ _ ?_ ?_ (by rw [hA]; rfl)
    · have := leVal_lt (g.take 4)
      have hl : (g.take 4).length = 4 := by simp [hlen]
      rw [hl] at this
      norm_num at this ⊢
      omega
    · norm_num
  have hg1 : g.take 4 = [0x01, 0x14, 0x02, 0x00] := by
    refine leVal_inj _ _ ?_ (by rw [hv1]; rfl)
    simp [hlen]
  -- Field 2: bytes 4-5
  have hv2 : leVal ((g.drop 4).take 2) = 0 := by
    refine natHexFixed_inj 4 _ _ ?_ ?_ (by rw [hB]; rfl)
    · have := leVal_lt ((g.drop 4).take 2)
      have hl : ((g.drop 4).take 2).length = 2 := by simp [hlen]
      rw [hl] at this
      norm_num at this ⊢
      omega
    · norm_num
  have hg2 : (g.drop 4).take 2 = [0x00, 0x00] := by
    refine leVal_inj _ _ ?_ (by rw [hv2]; rfl)
    simp [hlen]
  -- Field 3: bytes 6-7
  have hv3 : leVal ((g.drop 6).take 2) = 0 := by
    refine natHexFixed_inj 4 _ _ ?_ ?_ (by rw [hC]; rfl)
    · have := leVal_lt ((g.drop 6).take 2)
      have hl : ((g.drop 6).take 2).length = 2 := by simp [hlen]
      rw [hl] at this
      norm_num at this ⊢
      omega
    · norm_num
  have hg3 : (g.drop 6).take 2 = [0x00, 0x00] := by
    refine leVal_inj _ _ ?_ (by rw [hv3]; rfl)
    simp [hlen]
  -- Field 4: bytes 8-9 and 10-15
  have hg4 : (g.drop 8).take 2 = [0xC0, 0x00] := by
    refine flatMapHex_inj _ _ ?_ (by rw [hD]; rfl)
    simp [hlen]
  have hg5 : (g.drop 8).drop 2 = [0x00, 0x00, 0x00, 0x00, 0x00, 0x46] := by
    refine flatMapHex_inj _ _ ?_ (by rw [hE]; rfl)
    simp [hlen]
  -- Reassemble the sixteen bytes
  have e1 : g = g.take 4 ++ g.drop 4 := (List.take_append_drop 4 g).symm
  have e2 : g.drop 4 = (g.drop 4).take 2 ++ g.drop 6 := by
    have := (List.take_append_drop 2 (g.drop 4)).symm
    rwa [List.drop_drop] at this
  have e3 : g.drop 6 = (g.drop 6).take 2 ++ g.drop 8 := by
    have := (List.take_append_drop 2 (g.drop 6)).symm
    rwa [List.drop_drop] at this
  have e4 : g.drop 8 = (g.drop 8).take 2 ++ (g.drop 8).drop 2 :=
    (List.take_append_drop 2 (g.drop 8)).symm
  rw [e1, e2, e3, e4, hg1, hg2, hg3, hg4, hg5]
  rfl



/-! ## Concrete values used to evaluate the embedding -/

/-- The all-zero GUID. -/
def zeroGuid : Guid := { data1 := 0, data2 := 0, data3 := 0, data4 := List.replicate 8 0 }

/-- The entry decoded from 114 zero bytes at version 0. -/
def zeroEntryU : DestListEntry Unit :=
  { entry_id := none, volume_droid := zeroGuid, file_droid := zeroGuid,
    volume_birth_droid := zeroGuid, file_birth_droid := zeroGuid,
    hostname := [], entry_number := 0, mtime := { value := 0 },
    pined := true, path := [], lnk := none }

/-- 114 zero bytes: one version-0 DestList entry with an empty path. -/
def zeroEntryBytes : List Byte := List.replicate 114 0

/-- C7: for every u32 value read from the pin-sentinel field of a DestList
entry (offset 108 from the entry start), `DestListEntry::from_reader` sets
`pined` to false when the value is `0xFFFFFFFF` and to true for every other
value, inferring nothing further from non-sentinel values. -/
theorem c7_pin_sentinel {Lnk : Type} (version : Nat) (s : RState)
    (e : DestListEntry Lnk) (t : RState)
    (h : DestListEntry.from_reader version s = .ok (e, t)) :
    (leVal ((s.data.drop (s.pos + 108)).take 4) = 0xffffffff → e.pined = false) ∧
    (leVal ((s.data.drop (s.pos + 108)).take 4) ≠ 0xffffffff → e.pined = true) := by
  obtain ⟨_, _, _, _, hp⟩ := entry_ok_spec h
  constructor
  · intro hv; rw [hp, if_pos hv]
  · intro hv; rw [hp, if_neg hv]

/-- Witness for C7 at a concrete 114-byte entry whose sentinel is 0. -/
theorem c7_pin_sentinel_witness : zeroEntryU.pined = true :=
  (c7_pin_sentinel 0 { data := zeroEntryBytes, pos := 0 } zeroEntryU
    { data := zeroEntryBytes, pos := 114 } (by decide)).2 (by decide)

/-- Header (version 2, one category) followed by a Custom discriminant at the
end of the stream: the u16 name-length read fails. -/
def c3StreamA : List Byte := [2,0,0,0, 1,0,0,0, 0,0,0,0, 0,0,0,0]

/-- The same with a zero name length appended: the name read succeeds and the
u32 entry-count read fails. -/
def c3StreamB : List Byte := c3StreamA ++ [0, 0]

/-- C3, code bug: when the u16 name-length read (first conjunct) or the u32
entry-count read (second conjunct) of a Custom category fails,
`CustomDestinations::from_reader` panics through `.ok().unwrap()` instead of
returning the `StructureError` with field context that the spec promises for
every failed primitive read. -/
theorem c3_unwrap_panics :
    CustomDestinations.from_reader trivExt { data := c3StreamA, pos := 0 } =
      .panicked unwrapPanicMsg ∧
    CustomDestinations.from_reader trivExt { data := c3StreamB, pos := 0 } =
      .panicked unwrapPanicMsg := by
  exact ⟨by decide, by decide⟩

/-- C6 counterexample: a call of `DestList::from_reader` with a supplied
stream listing that has no `DestList` stream (so the header is synthesized)
but a non-empty reader returns one decoded entry, not the empty entry list
the claim asserts for every such call. -/
theorem c6_counterexample :
    DestList.from_reader trivExt (some []) (fun _ => none)
        { data := zeroEntryBytes, pos := 0 } =
      .ok { header := { version := 0, number_of_entries := 0, number_of_pinned_entries := 0 },
            entries := [zeroEntryU] } ∧
    ([zeroEntryU] : List (DestListEntry Unit)) ≠ [] := by
  exact ⟨by decide, by decide⟩

/-- C6 amended: with no `DestList` stream in the listing (or a zero-length
one), the call returns `Ok` with the synthesized zero-valued header and with
the entry list produced by running the entry loop on the supplied reader; in
particular the entry list is empty whenever the reader is empty, as at the
library's only such call site. -/
theorem c6_amended {Lnk : Type} (ext : Ext Lnk) (lnks : Option (List CfbEntry))
    (ops : String → Option (List Byte)) (s : RState) (hsz : destListSize lnks = 0) :
    DestList.from_reader ext lnks ops s =
      .ok { header := { version := 0, number_of_entries := 0, number_of_pinned_entries := 0 },
            entries := sortEntries (destListLoop ext lnks ops 0 (s.data.length + 1) s) } ∧
    (s.data = [] → DestList.from_reader ext lnks ops s =
      .ok { header := { version := 0, number_of_entries := 0, number_of_pinned_entries := 0 },
            entries := [] }) := by
  have hbase : DestList.from_reader ext lnks ops s =
      .ok { header := { version := 0, number_of_entries := 0, number_of_pinned_entries := 0 },
            entries := sortEntries (destListLoop ext lnks ops 0 (s.data.length + 1) s) } := by
    unfold DestList.from_reader
    rw [if_pos hsz]
  refine ⟨hbase, fun hd => ?_⟩
  have hloop : destListLoop ext lnks ops 0 (s.data.length + 1) s = [] := by
    cases he : @DestListEntry.from_reader Lnk 0 s with
    | error err => exact destListLoop_err _ he
    | ok p =>
      obtain ⟨_, hb, _, _, _⟩ := @entry_ok_spec _ _ _ p.1 p.2 (by rw [he])
      rw [hd] at hb
      simp at hb
  rw [hbase, hloop]
  rfl

/-- Witness for C6's amended statement: the empty reader with no stream
listing yields the synthesized header and no entries. -/
theorem c6_amended_witness :
    DestList.from_reader trivExt none (fun _ => none) { data := [], pos := 0 } =
      .ok { header := { version := 0, number_of_entries := 0, number_of_pinned_entries := 0 },
            entries := [] } :=
  (c6_amended trivExt none (fun _ => none) { data := [], pos := 0 } (by decide)).2 (by decide)

/-- C5: inside the embedded-entry loop that `CustomDestinations::from_reader`
runs for every Custom and Task category, an entry whose 16 class-id bytes are
not the shell-link class id `00021401-0000-0000-C000-000000000046` (the
rendering compared is canonical uppercase, so value inequality coincides with
case-insensitive textual inequality) makes the decode fail with a
`FileStructure` error whose message names the GUID actually observed. -/
theorem c5_guid_check {Lnk : Type} (ext : Ext Lnk) (catName : String) (k : Nat)
    (s s₁ : RState) (g : List Byte)
    (hread : readBytes 16 s = some (g, s₁)) (hne : g ≠ classIdBytes) :
    readCatEntries ext catName (k + 1) s =
      .error (.FileStructure
        (catName ++ " Category with unknown entry GUID '" ++ (guidOfBytes g).render ++ "'")) := by
  have hlen : g.length = 16 := by
    obtain ⟨hb, hg, _⟩ := readBytes_ok hread
    rw [hg]
    simp
    omega
  have hrne : (guidOfBytes g).render ≠ classIdStr :=
    fun hr => hne (guid_render_classId hlen hr)
  simp only [readCatEntries, hread]
  rw [if_pos hrne]

/-- Witness for C5: sixteen zero bytes render as the all-zero GUID and the
loop rejects them with the message naming that GUID. -/
theorem c5_guid_check_witness :
    readCatEntries trivExt "Custom" 1 { data := List.replicate 16 0, pos := 0 } =
      .error (.FileStructure ("Custom Category with unknown entry GUID '" ++
        (guidOfBytes (List.replicate 16 0)).render ++ "'")) :=
  c5_guid_check trivExt "Custom" 0 { data := List.replicate 16 0, pos := 0 }
    { data := List.replicate 16 0, pos := 16 } (List.replicate 16 0)
    (by decide) (by decide)



/-- The stream truncated to its first `k` bytes, position kept. -/
def truncateState (k : Nat) (s : RState) : RState :=
  { data := s.data.take k, pos := s.pos }

/-- A read that stays within the first `k` bytes also succeeds on the
stream truncated to `k` bytes, with the same result. -/
theorem readBytes_take {n : Nat} {s : RState} {bs : List Byte} {t : RState} (k : Nat)
    (h : readBytes n s = some (bs, t)) (hk : s.pos + n ≤ k) :
    readBytes n (truncateState k s) = some (bs, truncateState k t) := by
  obtain ⟨hle, hbs, ht⟩ := readBytes_ok h
  unfold readBytes truncateState
  have hlen : s.pos + n ≤ (s.data.take k).length := by
    simp
    omega
  rw [if_pos hlen]
  have hdrop : (s.data.take k).drop s.pos = (s.data.drop s.pos).take (k - s.pos) :=
    List.drop_take k s.pos s.data
  have htake : ((s.data.drop s.pos).take (k - s.pos)).take n = (s.data.drop s.pos).take n := by
    rw [List.take_take]
    congr 1
    omega
  subst ht hbs
  simp [hdrop, htake]

/-- `readU32` on a truncation within bounds. -/
theorem readU32_take {s : RState} {v : Nat} {t : RState} (k : Nat)
    (h : readU32 s = some (v, t)) (hk : s.pos + 4 ≤ k) :
    readU32 (truncateState k s) = some (v, truncateState k t) := by
  unfold readU32 at h ⊢
  cases hb : readBytes 4 s with
  | none => rw [hb] at h; cases h
  | some p =>
    rw [hb] at h
    cases h
    rw [readBytes_take k hb hk]
    rfl

/-- Characterization of a successful `DestListHeader::from_reader` call. -/
theorem header_ok_spec {s : RState} {hd : DestListHeader} {s₁ : RState}
    (h : DestListHeader.from_reader s = .ok (hd, s₁)) :
    s.pos + 12 ≤ s.data.length ∧ s₁ = { data := s.data, pos := s.pos + 32 } := by
  unfold DestListHeader.from_reader at h
  cases h1 : readU32 s with
  | none => rw [h1] at h; cases h
  | some p1 =>
  obtain ⟨v1, t1⟩ := p1
  rw [h1] at h
  simp only [] at h
  obtain ⟨hb1, _, ht1⟩ := readU32_ok h1
  cases h2 : readU32 t1 with
  | none => simp only [h2] at h; cases h
  | some p2 =>
  obtain ⟨v2, t2⟩ := p2
  simp only [h2] at h
  obtain ⟨hb2, _, ht2⟩ := readU32_ok h2
  cases h3 : readU32 t2 with
  | none => simp only [h3] at h; cases h
  | some p3 =>
  obtain ⟨v3, t3⟩ := p3
  simp only [h3] at h
  obtain ⟨hb3, _, ht3⟩ := readU32_ok h3
  injection h with hpair
  injection hpair with hhd hs₁
  constructor
  · have e1 : t1.pos = s.pos + 4 := by rw [ht1]
    have e1d : t1.data = s.data := by rw [ht1]
    have e2 : t2.pos = t1.pos + 4 := by rw [ht2]
    have e2d : t2.data = t1.data := by rw [ht2]
    rw [e2d, e1d] at hb3
    rw [e2, e1] at hb3
    omega
  · rw [← hs₁, ht3, ht2, ht1]
    unfold seekCur
    simp

/-- A successful header decode also succeeds, with the same header, on the
stream truncated anywhere past its twelve read bytes. -/
theorem header_take {s : RState} {hd : DestListHeader} {s₁ : RState} (k : Nat)
    (h : DestListHeader.from_reader s = .ok (hd, s₁)) (hk : s.pos + 12 ≤ k) :
    DestListHeader.from_reader (truncateState k s) = .ok (hd, truncateState k s₁) := by
  unfold DestListHeader.from_reader at h ⊢
  cases h1 : readU32 s with
  | none => rw [h1] at h; cases h
  | some p1 =>
  obtain ⟨v1, t1⟩ := p1
  rw [h1] at h
  simp only [] at h
  obtain ⟨_, _, ht1⟩ := readU32_ok h1
  simp only [readU32_take k h1 (by omega)]
  cases h2 : readU32 t1 with
  | none => simp only [h2] at h; cases h
  | some p2 =>
  obtain ⟨v2, t2⟩ := p2
  simp only [h2] at h
  obtain ⟨_, _, ht2⟩ := readU32_ok h2
  have hp1 : t1.pos = s.pos + 4 := by rw [ht1]
  simp only [readU32_take k h2 (by omega)]
  cases h3 : readU32 t2 with
  | none => simp only [h3] at h; cases h
  | some p3 =>
  obtain ⟨v3, t3⟩ := p3
  simp only [h3] at h
  have hp2 : t2.pos = t1.pos + 4 := by rw [ht2]
  simp only [readU32_take k h3 (by omega)]
  injection h with hpair
  injection hpair with hhd hs₁
  rw [← hs₁, hhd]
  rfl



/-- Entries decoded from a truncated stream (with the fuel the decoder would
use for it) are a prefix of the entries decoded from the full stream. -/
theorem destListLoop_take_prefix {Lnk : Type} (ext : Ext Lnk)
    (lnks : Option (List CfbEntry)) (ops : String → Option (List Byte))
    (version : Nat) (k : Nat) (s : RState) :
    ∃ rest, destListLoop ext lnks ops version ((s.data.take k).length + 1)
        (truncateState k s) ++ rest =
      destListLoop ext lnks ops version (s.data.length + 1) s := by
  have hF1 : destListLoop ext lnks ops version ((s.data.take k).length + 1) (truncateState k s)
      = destListLoop ext lnks ops version (s.data.length + 1) (truncateState k s) := by
    apply destListLoop_congr
    · simp [truncateState]
    · simp [truncateState]
      omega
  have happend := destListLoop_append ext lnks ops version (s.data.drop k)
    (s.data.length + 1) (truncateState k s)
  have hid : appendData (s.data.drop k) (truncateState k s) = s := by
    unfold appendData truncateState
    simp [List.take_append_drop]
  rw [hid] at happend
  rw [hF1]
  exact happend

/-- C2: for every DestList byte stream whose header decodes successfully
(with a listing that does carry a non-empty `DestList` stream), the call
returns `Ok` carrying exactly the entries the loop decoded before the first
entry failure; the entries of any truncation of the stream past the header
are a prefix of the full stream's entries, and the call on the truncated
stream still returns `Ok`, never an error. -/
theorem c2_lenient_truncation {Lnk : Type} (ext : Ext Lnk) (lnks : Option (List CfbEntry))
    (ops : String → Option (List Byte)) (s : RState) (hd : DestListHeader) (s₁ : RState)
    (k : Nat) (hsz : destListSize lnks ≠ 0)
    (hh : DestListHeader.from_reader s = .ok (hd, s₁)) (hk : s.pos + 12 ≤ k) :
    DestList.from_reader ext lnks ops s =
      .ok { header := hd,
            entries := sortEntries
              (destListLoop ext lnks ops hd.version (s₁.data.length + 1) s₁) } ∧
    (∃ rest,
      destListLoop ext lnks ops hd.version ((s₁.data.take k).length + 1) (truncateState k s₁)
          ++ rest
        = destListLoop ext lnks ops hd.version (s₁.data.length + 1) s₁) ∧
    DestList.from_reader ext lnks ops (truncateState k s) =
      .ok { header := hd,
            entries := sortEntries
              (destListLoop ext lnks ops hd.version ((s₁.data.take k).length + 1)
                (truncateState k s₁)) } := by
  obtain ⟨hb, hs₁⟩ := header_ok_spec hh
  refine ⟨?_, destListLoop_take_prefix ext lnks ops hd.version k s₁, ?_⟩
  · unfold DestList.from_reader
    rw [if_neg hsz]
    simp only [hh]
  · unfold DestList.from_reader
    rw [if_neg hsz]
    simp only [header_take k hh (by omega)]
    rfl

/-- Stream listing for the C2 witness: one `DestList` stream of length 32. -/
def c2Lnks : List CfbEntry := [{ name := "DestList", path := "d", len := 32 }]

/-- Thirty-two zero bytes: a bare version-0 DestList header with no entry. -/
def c2bytes : List Byte := List.replicate 32 0

/-- Witness for C2 on a concrete header-only stream, truncated at byte 12. -/
theorem c2_lenient_truncation_witness :
    DestList.from_reader trivExt (some c2Lnks) (fun _ => none) { data := c2bytes, pos := 0 } =
      .ok { header := { version := 0, number_of_entries := 0, number_of_pinned_entries := 0 },
            entries := sortEntries (destListLoop trivExt (some c2Lnks) (fun _ => none) 0
              (c2bytes.length + 1) { data := c2bytes, pos := 32 }) } ∧
    DestList.from_reader trivExt (some c2Lnks) (fun _ => none)
        (truncateState 12 { data := c2bytes, pos := 0 }) =
      .ok { header := { version := 0, number_of_entries := 0, number_of_pinned_entries := 0 },
            entries := sortEntries (destListLoop trivExt (some c2Lnks) (fun _ => none) 0
              ((c2bytes.take 12).length + 1)
              (truncateState 12 { data := c2bytes, pos := 32 })) } :=
  ⟨(c2_lenient_truncation trivExt (some c2Lnks) (fun _ => none) { data := c2bytes, pos := 0 }
      { version := 0, number_of_entries := 0, number_of_pinned_entries := 0 }
      { data := c2bytes, pos := 32 } 12 (by decide) (by decide) (by decide)).1,
   (c2_lenient_truncation trivExt (some c2Lnks) (fun _ => none) { data := c2bytes, pos := 0 }
      { version := 0, number_of_entries := 0, number_of_pinned_entries := 0 }
      { data := c2bytes, pos := 32 } 12 (by decide) (by decide) (by decide)).2.2⟩



/-- The entries of a successful `DestList::from_reader` call are the sort of
the decoded-in-order list. -/
theorem from_reader_entries_eq {Lnk : Type} {ext : Ext Lnk} {lnks : Option (List CfbEntry)}
    {ops : String → Option (List Byte)} {s : RState} {dl : DestList Lnk}
    (h : DestList.from_reader ext lnks ops s = .ok dl) :
    dl.entries = sortEntries (DestList.decodedInOrder ext lnks ops s) := by
  unfold DestList.from_reader at h
  unfold DestList.decodedInOrder
  cases hh : (if destListSize lnks = 0 then
          .ok ({ version := 0, number_of_entries := 0, number_of_pinned_entries := 0 }, s)
         else DestListHeader.from_reader s :
         Except JumplistParserError (DestListHeader × RState)) with
  | error e => rw [hh] at h; cases h
  | ok p =>
    obtain ⟨header, s₁⟩ := p
    rw [hh] at h
    simp only [] at h
    injection h with h1
    rw [← h1]

/-- C4: the entry list of every `DestList` value `DestList::from_reader`
returns is sorted by `entry_number` in descending order, and entries with
equal `entry_number` keep their relative decode order (the sort is stable):
restricted to any one `entry_number`, the result equals the decoded-in-order
list. -/
theorem c4_sorted_stable {Lnk : Type} (ext : Ext Lnk) (lnks : Option (List CfbEntry))
    (ops : String → Option (List Byte)) (s : RState) (dl : DestList Lnk)
    (h : DestList.from_reader ext lnks ops s = .ok dl) :
    List.Pairwise (fun a b => b.entry_number ≤ a.entry_number) dl.entries ∧
    ∀ n : Nat, dl.entries.filter (fun e => e.entry_number == n) =
      (DestList.decodedInOrder ext lnks ops s).filter (fun e => e.entry_number == n) := by
  rw [from_reader_entries_eq h]
  exact ⟨sortEntries_pairwise _, fun n => sortEntries_filter _ n⟩

/-- An entry with a given `entry_number` and everything else as in
`zeroEntryU`. -/
def c4Entry (n : Nat) : DestListEntry Unit :=
  { zeroEntryU with entry_number := n }

/-- Listing for the C4 witness. -/
def c4Lnks : List CfbEntry := [{ name := "DestList", path := "d", len := 260 }]

/-- A 32-byte version-0 header and two version-0 entries with entry numbers
5 then 12. -/
def c4bytes : List Byte :=
  List.replicate 120 0 ++ [5, 0, 0, 0] ++ List.replicate 110 0 ++
    [12, 0, 0, 0] ++ List.replicate 22 0

/-- The decoded value for the C4 witness: the entries come back sorted with
entry number 12 ahead of 5. -/
def c4DL : DestList Unit :=
  { header := { version := 0, number_of_entries := 0, number_of_pinned_entries := 0 },
    entries := [c4Entry 12, c4Entry 5] }

/-- Witness for C4: the concrete two-entry stream decodes to the descending
order [12, 5], and the entries numbered 12 keep their decode order. -/
theorem c4_sorted_stable_witness :
    List.Pairwise (fun a b => b.entry_number ≤ a.entry_number) c4DL.entries ∧
    c4DL.entries.filter (fun e => e.entry_number == 12) =
      (DestList.decodedInOrder trivExt (some c4Lnks) (fun _ => none)
        { data := c4bytes, pos := 0 }).filter (fun e => e.entry_number == 12) :=
  ⟨(c4_sorted_stable trivExt (some c4Lnks) (fun _ => none) { data := c4bytes, pos := 0 }
      c4DL (by decide)).1,
   (c4_sorted_stable trivExt (some c4Lnks) (fun _ => none) { data := c4bytes, pos := 0 }
      c4DL (by decide)).2 12⟩



/-- An attachment produced by the correlation loop comes either from a
listing stream whose name is the entry number in lowercase hexadecimal and
whose opened contents the external decoder accepts, or was already present
before the loop ran. -/
theorem correlateLnk_some {Lnk : Type} (ext : Ext Lnk) (ops : String → Option (List Byte))
    (num : Nat) : ∀ (ls : List CfbEntry) (cur : Option Lnk) (l : Lnk),
    correlateLnk ext ops num ls cur = some l →
    (∃ c ∈ ls, c.name = entryStreamName num ∧
      ∃ d, ops c.path = some d ∧ ext.parseLnkBuffer d = some l) ∨ cur = some l := by
  intro ls
  induction ls with
  | nil => intro cur l h; right; exact h
  | cons c rest ih =>
    intro cur l h
    simp only [correlateLnk] at h
    by_cases hn : entryStreamName num = c.name
    · rw [if_pos hn] at h
      cases hops : ops c.path with
      | some d =>
        rw [hops] at h
        rcases ih _ l h with hex | hcur
        · obtain ⟨c', hc', hrest⟩ := hex
          exact Or.inl ⟨c', List.mem_cons_of_mem _ hc', hrest⟩
        · exact Or.inl ⟨c, List.mem_cons_self c rest, hn.symm, d, hops, hcur⟩
      | none =>
        rw [hops] at h
        rcases ih _ l h with hex | hcur
        · obtain ⟨c', hc', hrest⟩ := hex
          exact Or.inl ⟨c', List.mem_cons_of_mem _ hc', hrest⟩
        · exact Or.inr hcur
    · rw [if_neg hn] at h
      rcases ih _ l h with hex | hcur
      · obtain ⟨c', hc', hrest⟩ := hex
        exact Or.inl ⟨c', List.mem_cons_of_mem _ hc', hrest⟩
      · exact Or.inr hcur

/-- When every matching stream either fails to open or is rejected by the
external decoder, the correlation loop leaves no attachment. -/
theorem correlateLnk_allfail {Lnk : Type} (ext : Ext Lnk) (ops : String → Option (List Byte))
    (num : Nat) : ∀ (ls : List CfbEntry),
    (∀ c ∈ ls, c.name = entryStreamName num →
      ∀ d, ops c.path = some d → ext.parseLnkBuffer d = none) →
    correlateLnk ext ops num ls none = none := by
  intro ls
  induction ls with
  | nil => intro _; rfl
  | cons c rest ih =>
    intro hall
    simp only [correlateLnk]
    by_cases hn : entryStreamName num = c.name
    · rw [if_pos hn]
      cases hops : ops c.path with
      | some d =>
        have hpd : ext.parseLnkBuffer d = none :=
          hall c (List.mem_cons_self c rest) hn.symm d hops
        show correlateLnk ext ops num rest (ext.parseLnkBuffer d) = none
        rw [hpd]
        exact ih (fun c' hc' => hall c' (List.mem_cons_of_mem _ hc'))
      | none => exact ih (fun c' hc' => hall c' (List.mem_cons_of_mem _ hc'))
    · rw [if_neg hn]
      exact ih (fun c' hc' => hall c' (List.mem_cons_of_mem _ hc'))

/-- Every member of the correlated entry loop's output is a decoded entry
(whose attachment started absent) passed through the correlation. -/
theorem destListLoop_mem_some {Lnk : Type} (ext : Ext Lnk) (ls : List CfbEntry)
    (ops : String → Option (List Byte)) (version : Nat) :
    ∀ (f : Nat) (s : RState) (e' : DestListEntry Lnk),
    e' ∈ destListLoop ext (some ls) ops version f s →
    ∃ e₀ : DestListEntry Lnk, e₀.lnk = none ∧ e' = correlateEntry ext ls ops e₀ := by
  intro f
  induction f with
  | zero => intro s e' h; cases h
  | succ f ih =>
    intro s e' h
    cases he : @DestListEntry.from_reader Lnk version s with
    | error err =>
      rw [destListLoop_err f he] at h
      cases h
    | ok p =>
      obtain ⟨e, s'⟩ := p
      rw [destListLoop_ok f he] at h
      rcases List.mem_cons.mp h with hhd | htl
      · obtain ⟨_, _, _, hlnk, _⟩ := entry_ok_spec he
        exact ⟨e, hlnk, hhd⟩
      · exact ih s' e' htl

/-- C8: in every successful `DestList::from_reader` run with a supplied
stream listing, an entry carries an attached shell-link only when some
listing stream named by the entry number's lowercase-hexadecimal form opened
successfully and the external decoder accepted its contents; and an entry
all of whose matching streams fail (to open, or to decode) is still in the
result, with no shell-link attached. -/
theorem c8_correlation {Lnk : Type} (ext : Ext Lnk) (ls : List CfbEntry)
    (ops : String → Option (List Byte)) (s : RState) (dl : DestList Lnk)
    (h : DestList.from_reader ext (some ls) ops s = .ok dl) :
    ∀ e ∈ dl.entries,
      (∀ l : Lnk, e.lnk = some l →
        ∃ c ∈ ls, c.name = entryStreamName e.entry_number ∧
          ∃ d, ops c.path = some d ∧ ext.parseLnkBuffer d = some l) ∧
      ((∀ c ∈ ls, c.name = entryStreamName e.entry_number →
          ∀ d, ops c.path = some d → ext.parseLnkBuffer d = none) → e.lnk = none) := by
  intro e he
  rw [from_reader_entries_eq h] at he
  have he' := mem_sortEntries.mp he
  unfold DestList.decodedInOrder at he'
  obtain ⟨e₀, hlnk0, heq⟩ : ∃ e₀ : DestListEntry Lnk, e₀.lnk = none ∧
      e = correlateEntry ext ls ops e₀ := by
    cases hh : (if destListSize (some ls) = 0 then
            .ok ({ version := 0, number_of_entries := 0, number_of_pinned_entries := 0 }, s)
           else DestListHeader.from_reader s :
           Except JumplistParserError (DestListHeader × RState)) with
    | error err => rw [hh] at he'; cases he'
    | ok p =>
      rw [hh] at he'
      exact destListLoop_mem_some ext ls ops p.1.version _ p.2 e he'
  have hnum : e.entry_number = e₀.entry_number := by rw [heq]; rfl
  have hlnk : e.lnk = correlateLnk ext ops e₀.entry_number ls none := by
    rw [heq]
    show correlateLnk ext ops e₀.entry_number ls e₀.lnk = _
    rw [hlnk0]
  constructor
  · intro l hel
    rw [hlnk] at hel
    rcases correlateLnk_some ext ops e₀.entry_number ls none l hel with hex | hcur
    · rw [hnum]; exact hex
    · cases hcur
  · intro hall
    rw [hlnk]
    exact correlateLnk_allfail ext ops e₀.entry_number ls
      (by rw [← hnum]; exact hall)

/-- Listing for the C8 witness: only the `DestList` stream itself, whose
name matches no entry number. -/
def c8Lnks : List CfbEntry := [{ name := "DestList", path := "d", len := 146 }]

/-- A 32-byte header followed by one 114-byte entry, all zero. -/
def c8bytes : List Byte := List.replicate 146 0

/-- Witness for C8: the decoded entry of the concrete stream has no
shell-link attached, every (vacuously, no) matching stream having failed. -/
theorem c8_correlation_witness : zeroEntryU.lnk = none :=
  (c8_correlation trivExt c8Lnks (fun _ => none) { data := c8bytes, pos := 0 }
      { header := { version := 0, number_of_entries := 0, number_of_pinned_entries := 0 },
        entries := [zeroEntryU] }
      (by decide) zeroEntryU (by decide)).2 (by decide)



/-- Lookup finds the binding just inserted. -/
theorem alGet_alInsert_self (k v : String) (m : List (String × String)) :
    alGet k (alInsert k v m) = some v := by
  simp [alGet, alInsert]

/-- Filtering out another key's bindings does not change a lookup. -/
theorem find?_filter_ne (k k' : String) (m : List (String × String)) (hne : k ≠ k') :
    (m.filter (fun p => p.1 ≠ k')).find? (fun p => p.1 = k) =
      m.find? (fun p => p.1 = k) := by
  induction m with
  | nil => rfl
  | cons p rest ih =>
    by_cases hp : p.1 = k'
    · rw [List.filter_cons_of_neg (by simp [hp]), ih,
        List.find?_cons_of_neg _ (by simp [hp]; exact fun hq => hne hq.symm)]
    · rw [List.filter_cons_of_pos (by simp [hp])]
      by_cases hk : p.1 = k
      · rw [List.find?_cons_of_pos _ (by simp [hk]), List.find?_cons_of_pos _ (by simp [hk])]
      · rw [List.find?_cons_of_neg _ (by simp [hk]), List.find?_cons_of_neg _ (by simp [hk]), ih]

/-- Lookup through a binding for a different key. -/
theorem alGet_alInsert_ne (k k' v : String) (m : List (String × String)) (hne : k ≠ k') :
    alGet k (alInsert k' v m) = alGet k m := by
  unfold alGet alInsert
  rw [List.find?_cons_of_neg _ (by simp; exact fun hq => hne hq.symm),
    find?_filter_ne k k' m hne]

/-- The two derived keys of the per-LNK mapping. -/
theorem mkLnkMap_keys {Lnk : Type} (ext : Ext Lnk) (l : Lnk) :
    alGet "name_string" (mkLnkMap ext l) = some ((ext.getNameString l).getD "") ∧
    alGet "command_line_arguments" (mkLnkMap ext l) =
      some ((ext.getCommandLineArguments l).getD "") ∧
    mkLnkMap ext l ≠ [] := by
  refine ⟨?_, ?_, by simp [mkLnkMap, alInsert]⟩
  · unfold mkLnkMap
    rw [alGet_alInsert_ne _ _ _ _ (by decide), alGet_alInsert_self]
  · unfold mkLnkMap
    rw [alGet_alInsert_self]



/-- C9: normalization yields one mapping per DestList entry in entry order —
the empty mapping exactly when the entry has no attached shell-link, and the
per-LNK mapping otherwise; every per-LNK mapping (so every non-empty
produced mapping) binds `name_string` and `command_line_arguments`, each to
the accessor's value or the empty string when the shell-link lacks the
field; and `CustomDestinations` flattening yields one mapping per embedded
shell-link, categories without an entries list contributing nothing. -/
theorem c9_normalization {Lnk : Type} (ext : Ext Lnk) (dl : DestList Lnk)
    (cd : CustomDestinations Lnk) :
    DestList.normalize ext dl = dl.entries.map (DestListEntry.normalize ext) ∧
    (∀ e : DestListEntry Lnk, e.lnk = none → DestListEntry.normalize ext e = []) ∧
    (∀ (e : DestListEntry Lnk) (l : Lnk), e.lnk = some l →
      DestListEntry.normalize ext e = mkLnkMap ext l) ∧
    (∀ l : Lnk,
      alGet "name_string" (mkLnkMap ext l) = some ((ext.getNameString l).getD "") ∧
      alGet "command_line_arguments" (mkLnkMap ext l) =
        some ((ext.getCommandLineArguments l).getD "") ∧
      mkLnkMap ext l ≠ []) ∧
    (CustomDestinations.flaten ext cd).length =
      (cd.entries.map (fun c => (c.entries.getD []).length)).sum ∧
    (∀ m ∈ CustomDestinations.flaten ext cd, ∃ l : Lnk, m = mkLnkMap ext l) := by
  refine ⟨rfl, ?_, ?_, mkLnkMap_keys ext, ?_, ?_⟩
  · intro e he
    unfold DestListEntry.normalize
    rw [he]
  · intro e l he
    unfold DestListEntry.normalize
    rw [he]
  · unfold CustomDestinations.flaten
    induction cd.entries with
    | nil => rfl
    | cons cat rest ih =>
      rw [List.flatMap_cons, List.map_cons, List.sum_cons, List.length_append, ih]
      congr 1
      cases hce : cat.entries with
      | some lnks => simp
      | none => rfl
  · intro m hm
    unfold CustomDestinations.flaten at hm
    rw [List.mem_flatMap] at hm
    obtain ⟨cat, _, hmc⟩ := hm
    cases hce : cat.entries with
    | some lnks =>
      rw [hce] at hmc
      simp only [] at hmc
      obtain ⟨l, _, hml⟩ := List.mem_map.mp hmc
      exact ⟨l, hml.symm⟩
    | none =>
      rw [hce] at hmc
      cases hmc

/-- A concrete LNK model for the C9 witness: `name_string` is absent,
`command_line_arguments` is "args". -/
def c9Ext : Ext Unit :=
  { parseLnkStream := fun _ => none
    parseLnkBuffer := fun _ => none
    normalizeLnk := fun _ => [("x", "y")]
    getNameString := fun _ => none
    getCommandLineArguments := fun _ => some "args" }

/-- An entry with an attached LNK record, for the C9 witness. -/
def c9Entry : DestListEntry Unit := { zeroEntryU with lnk := some () }

/-- An empty DestList value for the C9 witness. -/
def c9DL : DestList Unit :=
  { header := { version := 0, number_of_entries := 0, number_of_pinned_entries := 0 },
    entries := [] }

/-- An empty CustomDestinations value for the C9 witness. -/
def c9CD : CustomDestinations Unit :=
  { header := { version := 0, num_of_cat := 0, unkonwn := 0 }, entries := [] }

/-- Witness for C9 at concrete values: the entry with an attachment maps to
the per-LNK mapping, whose two derived keys default as specified. -/
theorem c9_normalization_witness :
    DestListEntry.normalize c9Ext c9Entry = mkLnkMap c9Ext () ∧
    alGet "name_string" (mkLnkMap c9Ext ()) = some "" ∧
    alGet "command_line_arguments" (mkLnkMap c9Ext ()) = some "args" ∧
    DestListEntry.normalize c9Ext zeroEntryU = [] :=
  ⟨(c9_normalization c9Ext c9DL c9CD).2.2.1 c9Entry () (by decide),
   ((c9_normalization c9Ext c9DL c9CD).2.2.2.1 ()).1,
   ((c9_normalization c9Ext c9DL c9CD).2.2.2.1 ()).2.1,
   (c9_normalization c9Ext c9DL c9CD).2.1 zeroEntryU (by decide)⟩



/-- C10: whenever `JumplistParser::from_path` returns `Ok`, the record's
`app_id` is the filename stem, `app_name` is the looked-up friendly name or
the empty string when the stem is not in the lookup table, and `source_path`
is the input path — all three are `Some` on success. -/
theorem c10_identity_fields {Lnk : Type} (ext : Ext Lnk) (cfbOpen : List Byte → Option Cfb)
    (readFileFn : String → Option (List Byte)) (appidToName : String → Option String)
    (path : String) (rec : JumplistParser Lnk)
    (h : JumplistParser.from_path ext cfbOpen readFileFn appidToName path = .ok rec) :
    rec.app_id = some (stemOf (fileNameOf path)) ∧
    rec.app_name = some ((appidToName (stemOf (fileNameOf path))).getD "") ∧
    rec.source_path = some path := by
  simp only [JumplistParser.from_path] at h
  cases hr : readFileFn path with
  | none => simp only [hr] at h; cases h
  | some buffer =>
  simp only [hr] at h
  cases hjt : (if strEndsWith (fileNameOf path) ".automaticDestinations-ms" then
      some JumplistType.Automatic
    else if strEndsWith (fileNameOf path) ".customDestinations-ms" then
      some JumplistType.Custom
    else none) with
  | none => simp only [hjt] at h; cases h
  | some jumplist_type =>
  simp only [hjt] at h
  cases hfr : JumplistParser.from_reader ext cfbOpen buffer jumplist_type with
  | ok parsed =>
    simp only [hfr] at h
    injection h with h1
    rw [← h1]
    exact ⟨rfl, rfl, rfl⟩
  | error e => simp only [hfr] at h; cases h
  | panicked m => simp only [hfr] at h; cases h

/-- Bytes for the C10 witness: header (version 3, one category) and one
Known category with id 2 (Recent) plus the 4-byte footer. -/
def c10Bytes : List Byte :=
  [3,0,0,0, 1,0,0,0, 0,0,0,0, 1,0,0,0, 2,0,0,0, 0,0,0,0]

/-- The decoded CustomDestinations value of `c10Bytes`. -/
def c10CD : CustomDestinations Unit :=
  { header := { version := 3, num_of_cat := 1, unkonwn := 0 },
    entries := [{ type := .Known, name := none, num_of_entries := none,
                  id := some .Recent, entries := none }] }

/-- The record `from_path` produces for the C10 witness. -/
def c10Rec : JumplistParser Unit :=
  { app_id := some "a", app_name := some "",
    type := .Custom, source_path := some "dir/a.customDestinations-ms",
    data := .CustomDestinations c10CD }

/-- Witness for C10 on a concrete path and file. -/
theorem c10_identity_fields_witness :
    c10Rec.app_id = some "a" ∧ c10Rec.app_name = some "" ∧
    c10Rec.source_path = some "dir/a.customDestinations-ms" := by
  have h := c10_identity_fields trivExt (fun _ => none) (fun _ => some c10Bytes)
    (fun _ => none) "dir/a.customDestinations-ms" c10Rec (by decide)
  refine ⟨h.1.trans ?_, h.2.1.trans ?_, h.2.2⟩ <;> decide



/-- Contract of the opaque LNK stream decoder used for extension reasoning:
a successful decode is unchanged when bytes are appended past the end of the
data (the real decoder reads only the bytes of the length-delimited record
it consumes). -/
def ExtRespectsAppend {Lnk : Type} (ext : Ext Lnk) : Prop :=
  ∀ (s : RState) (extra : List Byte) (l : Lnk) (t : RState),
    ext.parseLnkStream s = some (l, t) →
    ext.parseLnkStream (appendData extra s) = some (l, appendData extra t)

/-- The trivial decoder respects extension. -/
theorem trivExt_respects : ExtRespectsAppend trivExt := by
  intro s extra l t h
  cases h

/-- The embedded-entry loop returns exactly as many LNK records as it was
asked to read. -/
theorem readCatEntries_ok_length {Lnk : Type} (ext : Ext Lnk) (catName : String) :
    ∀ (n : Nat) (s : RState) (es : List Lnk) (t : RState),
      readCatEntries ext catName n s = .ok (es, t) → es.length = n := by
  intro n
  induction n with
  | zero =>
    intro s es t h
    simp only [readCatEntries] at h
    injection h with h1
    injection h1 with he _
    rw [← he]
    rfl
  | succ n ih =>
    intro s es t h
    simp only [readCatEntries] at h
    cases hb : readBytes 16 s with
    | none => simp only [hb] at h; cases h
    | some p =>
    obtain ⟨g, s₁⟩ := p
    simp only [hb] at h
    split at h
    · cases h
    · cases hl : ext.parseLnkStream s₁ with
      | none => simp only [hl] at h; cases h
      | some q =>
      obtain ⟨l, s₂⟩ := q
      simp only [hl] at h
      cases hr : readCatEntries ext catName n s₂ with
      | error e => simp only [hr] at h; cases h
      | panicked m => simp only [hr] at h; cases h
      | ok pr =>
      obtain ⟨rest, s₃⟩ := pr
      simp only [hr] at h
      injection h with h1
      injection h1 with he _
      rw [← he]
      simp [ih s₂ rest s₃ hr]

/-- The embedded-entry loop is unchanged by appending bytes past the end of
the data, given the decoder contract. -/
theorem readCatEntries_append {Lnk : Type} {ext : Ext Lnk} (hext : ExtRespectsAppend ext)
    (catName : String) (extra : List Byte) :
    ∀ (n : Nat) (s : RState) (es : List Lnk) (t : RState),
      readCatEntries ext catName n s = .ok (es, t) →
      readCatEntries ext catName n (appendData extra s) = .ok (es, appendData extra t) := by
  intro n
  induction n with
  | zero =>
    intro s es t h
    simp only [readCatEntries] at h ⊢
    injection h with h1
    injection h1 with he ht
    rw [he, ht]
  | succ n ih =>
    intro s es t h
    simp only [readCatEntries] at h ⊢
    cases hb : readBytes 16 s with
    | none => simp only [hb] at h; cases h
    | some p =>
    obtain ⟨g, s₁⟩ := p
    simp only [hb] at h
    simp only [readBytes_append extra hb]
    split at h
    · cases h
    next hguid =>
      rw [if_neg hguid]
      cases hl : ext.parseLnkStream s₁ with
      | none => simp only [hl] at h; cases h
      | some q =>
      obtain ⟨l, s₂⟩ := q
      simp only [hl] at h
      simp only [hext s₁ extra l s₂ hl]
      cases hr : readCatEntries ext catName n s₂ with
      | error e => simp only [hr] at h; cases h
      | panicked m => simp only [hr] at h; cases h
      | ok pr =>
      obtain ⟨rest, s₃⟩ := pr
      simp only [hr] at h
      simp only [ih s₂ rest s₃ hr]
      injection h with h1
      injection h1 with he ht
      rw [he, ht]



/-- When the u32 read after the tolerated name read succeeds, the name read
itself must have succeeded (a failed name read drains the stream, leaving
nothing for the u32). -/
theorem readNameOpt_u32_ok {nameLen : Nat} {s₂ : RState} {v : Nat} {s₄ : RState}
    (h : readU32 (readNameOpt nameLen s₂).2 = some (v, s₄)) :
    ∃ nm s₃, readUtf16 nameLen s₂ = some (nm, s₃) ∧
      readNameOpt nameLen s₂ = (some nm, s₃) := by
  unfold readNameOpt at h ⊢
  cases hu : readUtf16 nameLen s₂ with
  | some p =>
    obtain ⟨nm, s₃⟩ := p
    exact ⟨nm, s₃, rfl, rfl⟩
  | none =>
    simp only [hu] at h
    obtain ⟨hb, _, _⟩ := readU32_ok h
    simp at hb

/-- The name read transported to the extended stream. -/
theorem readNameOpt_append {nameLen : Nat} {s₂ s₃ : RState} {nm : List Nat}
    (extra : List Byte) (h : readUtf16 nameLen s₂ = some (nm, s₃)) :
    readNameOpt nameLen (appendData extra s₂) = (some nm, appendData extra s₃) := by
  unfold readNameOpt
  rw [readUtf16_append extra h]

/-- The category loop returns exactly as many categories as iterations. -/
theorem catLoop_ok_length {Lnk : Type} (ext : Ext Lnk) :
    ∀ (n : Nat) (s : RState) (cats : List (Catagory Lnk)) (t : RState),
      catLoop ext n s = .ok (cats, t) → cats.length = n := by
  intro n
  induction n with
  | zero =>
    intro s cats t h
    simp only [catLoop] at h
    injection h with h1
    injection h1 with he _
    rw [← he]
    rfl
  | succ n ih =>
    intro s cats t h
    simp only [catLoop] at h
    cases ht : readU32 s with
    | none => simp only [ht] at h; cases h
    | some p =>
    obtain ⟨tdisc, s₁⟩ := p
    simp only [ht] at h
    split at h
    · -- Custom
      cases hu16 : readU16 s₁ with
      | none => simp only [hu16] at h; cases h
      | some p2 =>
      obtain ⟨nameLen, s₂⟩ := p2
      simp only [hu16] at h
      cases hnum : readU32 (readNameOpt nameLen s₂).2 with
      | none => simp only [hnum] at h; cases h
      | some p3 =>
      obtain ⟨numEntries, s₄⟩ := p3
      simp only [hnum] at h
      cases hrce : readCatEntries ext "Custom" numEntries s₄ with
      | error e => simp only [hrce] at h; cases h
      | panicked m => simp only [hrce] at h; cases h
      | ok p4 =>
      obtain ⟨entries, s₅⟩ := p4
      simp only [hrce] at h
      cases hrec : catLoop ext n (seekCur 4 s₅) with
      | error e => simp only [hrec] at h; cases h
      | panicked m => simp only [hrec] at h; cases h
      | ok p5 =>
      obtain ⟨rest, sf⟩ := p5
      simp only [hrec] at h
      injection h with h1
      injection h1 with he _
      rw [← he]
      simp [ih _ rest sf hrec]
    · split at h
      · -- Known
        cases hid : readI32 s₁ with
        | none => simp only [hid] at h; cases h
        | some p2 =>
        obtain ⟨idVal, s₂⟩ := p2
        simp only [hid] at h
        cases hrec : catLoop ext n (seekCur 4 s₂) with
        | error e => simp only [hrec] at h; cases h
        | panicked m => simp only [hrec] at h; cases h
        | ok p5 =>
        obtain ⟨rest, sf⟩ := p5
        simp only [hrec] at h
        injection h with h1
        injection h1 with he _
        rw [← he]
        simp [ih _ rest sf hrec]
      · split at h
        · -- Task
          cases hnum : readU32 s₁ with
          | none => simp only [hnum] at h; cases h
          | some p2 =>
          obtain ⟨numEntries, s₂⟩ := p2
          simp only [hnum] at h
          cases hrce : readCatEntries ext "Task" numEntries s₂ with
          | error e => simp only [hrce] at h; cases h
          | panicked m => simp only [hrce] at h; cases h
          | ok p4 =>
          obtain ⟨entries, s₃⟩ := p4
          simp only [hrce] at h
          cases hrec : catLoop ext n (seekCur 4 s₃) with
          | error e => simp only [hrec] at h; cases h
          | panicked m => simp only [hrec] at h; cases h
          | ok p5 =>
          obtain ⟨rest, sf⟩ := p5
          simp only [hrec] at h
          injection h with h1
          injection h1 with he _
          rw [← he]
          simp [ih _ rest sf hrec]
        · cases h



/-- The category loop is unchanged by appending bytes past the end of the
data, given the decoder contract: no iteration looks beyond the bytes it
consumes. -/
theorem catLoop_append {Lnk : Type} {ext : Ext Lnk} (hext : ExtRespectsAppend ext)
    (extra : List Byte) :
    ∀ (n : Nat) (s : RState) (cats : List (Catagory Lnk)) (t : RState),
      catLoop ext n s = .ok (cats, t) →
      catLoop ext n (appendData extra s) = .ok (cats, appendData extra t) := by
  intro n
  induction n with
  | zero =>
    intro s cats t h
    simp only [catLoop] at h ⊢
    injection h with h1
    injection h1 with he ht
    rw [he, ht]
  | succ n ih =>
    intro s cats t h
    simp only [catLoop] at h ⊢
    cases ht : readU32 s with
    | none => simp only [ht] at h; cases h
    | some p =>
    obtain ⟨tdisc, s₁⟩ := p
    simp only [ht] at h
    simp only [readU32_append extra ht]
    split at h
    next h0 =>
      rw [if_pos h0]
      cases hu16 : readU16 s₁ with
      | none => simp only [hu16] at h; cases h
      | some p2 =>
      obtain ⟨nameLen, s₂⟩ := p2
      simp only [hu16] at h
      simp only [readU16_append extra hu16]
      cases hnum : readU32 (readNameOpt nameLen s₂).2 with
      | none => simp only [hnum] at h; cases h
      | some p3 =>
      obtain ⟨numEntries, s₄⟩ := p3
      obtain ⟨nm, s₃, hu, hnp⟩ := readNameOpt_u32_ok hnum
      simp only [hnum] at h
      rw [hnp] at hnum
      simp only [readNameOpt_append extra hu]
      simp only [hnp] at h
      simp only [readU32_append extra hnum]
      cases hrce : readCatEntries ext "Custom" numEntries s₄ with
      | error e => simp only [hrce] at h; cases h
      | panicked m => simp only [hrce] at h; cases h
      | ok p4 =>
      obtain ⟨entries, s₅⟩ := p4
      simp only [hrce] at h
      simp only [readCatEntries_append hext "Custom" extra numEntries s₄ entries s₅ hrce]
      cases hrec : catLoop ext n (seekCur 4 s₅) with
      | error e => simp only [hrec] at h; cases h
      | panicked m => simp only [hrec] at h; cases h
      | ok p5 =>
      obtain ⟨rest, sf⟩ := p5
      simp only [hrec] at h
      rw [seekCur_append]
      simp only [ih _ rest sf hrec]
      injection h with h1
      injection h1 with he hts
      rw [he, hts]
    next h0 =>
      rw [if_neg h0]
      split at h
      next h1 =>
        rw [if_pos h1]
        cases hid : readI32 s₁ with
        | none => simp only [hid] at h; cases h
        | some p2 =>
        obtain ⟨idVal, s₂⟩ := p2
        simp only [hid] at h
        simp only [readI32_append extra hid]
        cases hrec : catLoop ext n (seekCur 4 s₂) with
        | error e => simp only [hrec] at h; cases h
        | panicked m => simp only [hrec] at h; cases h
        | ok p5 =>
        obtain ⟨rest, sf⟩ := p5
        simp only [hrec] at h
        rw [seekCur_append]
        simp only [ih _ rest sf hrec]
        injection h with h1
        injection h1 with he hts
        rw [he, hts]
      next h1 =>
        rw [if_neg h1]
        split at h
        next h2 =>
          rw [if_pos h2]
          cases hnum : readU32 s₁ with
          | none => simp only [hnum] at h; cases h
          | some p2 =>
          obtain ⟨numEntries, s₂⟩ := p2
          simp only [hnum] at h
          simp only [readU32_append extra hnum]
          cases hrce : readCatEntries ext "Task" numEntries s₂ with
          | error e => simp only [hrce] at h; cases h
          | panicked m => simp only [hrce] at h; cases h
          | ok p4 =>
          obtain ⟨entries, s₃⟩ := p4
          simp only [hrce] at h
          simp only [readCatEntries_append hext "Task" extra numEntries s₂ entries s₃ hrce]
          cases hrec : catLoop ext n (seekCur 4 s₃) with
          | error e => simp only [hrec] at h; cases h
          | panicked m => simp only [hrec] at h; cases h
          | ok p5 =>
          obtain ⟨rest, sf⟩ := p5
          simp only [hrec] at h
          rw [seekCur_append]
          simp only [ih _ rest sf hrec]
          injection h with h1
          injection h1 with he hts
          rw [he, hts]
        next h2 =>
          rw [if_neg h2]
          cases h



/-- The header read transported to the extended stream. -/
theorem customDestinationsHeader_append {s : RState}
    {hd : CustomDestinationsHeader} {s₁ : RState} (extra : List Byte)
    (h : CustomDestinationsHeader.from_reader s = .ok (hd, s₁)) :
    CustomDestinationsHeader.from_reader (appendData extra s) = .ok (hd, appendData extra s₁) := by
  unfold CustomDestinationsHeader.from_reader at h ⊢
  cases h1 : readU32 s with
  | none => rw [h1] at h; cases h
  | some p1 =>
  obtain ⟨v1, t1⟩ := p1
  simp only [h1] at h
  simp only [readU32_append extra h1]
  cases h2 : readU32 t1 with
  | none => simp only [h2] at h; cases h
  | some p2 =>
  obtain ⟨v2, t2⟩ := p2
  simp only [h2] at h
  simp only [readU32_append extra h2]
  cases h3 : readU32 t2 with
  | none => simp only [h3] at h; cases h
  | some p3 =>
  obtain ⟨v3, t3⟩ := p3
  simp only [h3] at h
  simp only [readU32_append extra h3]
  injection h with hpair
  injection hpair with hhd hs₁
  rw [hhd, hs₁]

/-- C1: every successful `CustomDestinations::from_reader` run returns
exactly `header.num_of_cat` categories, accumulated in the order their
records occur in the stream (the loop appends one category per record, each
record followed by its skipped 4-byte footer regardless of variant); and no
trailing-data validation is performed after the last record — appending any
bytes past the end yields the same successful result. -/
theorem c1_category_count {Lnk : Type} (ext : Ext Lnk) (hext : ExtRespectsAppend ext)
    (s : RState) (extra : List Byte) (cd : CustomDestinations Lnk)
    (h : CustomDestinations.from_reader ext s = .ok cd) :
    cd.entries.length = cd.header.num_of_cat ∧
    CustomDestinations.from_reader ext (appendData extra s) = .ok cd := by
  unfold CustomDestinations.from_reader at h ⊢
  cases hh : CustomDestinationsHeader.from_reader s with
  | error e => rw [hh] at h; cases h
  | ok p =>
  obtain ⟨hd, s₁⟩ := p
  simp only [hh] at h
  simp only [customDestinationsHeader_append extra hh]
  cases hc : catLoop ext hd.num_of_cat s₁ with
  | error e => simp only [hc] at h; cases h
  | panicked m => simp only [hc] at h; cases h
  | ok q =>
  obtain ⟨cats, s₂⟩ := q
  simp only [hc] at h
  simp only [catLoop_append hext extra _ _ _ _ hc]
  injection h with h1
  constructor
  · rw [← h1]
    exact catLoop_ok_length ext _ _ _ _ hc
  · rw [h1]

/-- Bytes for the C1 witness: header (version 3, one category), one Known
category (id 2, Recent), 4-byte footer. -/
def c1Bytes : List Byte :=
  [3,0,0,0, 1,0,0,0, 0,0,0,0, 1,0,0,0, 2,0,0,0, 0,0,0,0]

/-- The decoded value of `c1Bytes`. -/
def c1CD : CustomDestinations Unit :=
  { header := { version := 3, num_of_cat := 1, unkonwn := 0 },
    entries := [{ type := .Known, name := none, num_of_entries := none,
                  id := some .Recent, entries := none }] }

/-- Witness for C1 on a concrete one-category stream with a trailing byte
appended. -/
theorem c1_category_count_witness :
    c1CD.entries.length = c1CD.header.num_of_cat ∧
    CustomDestinations.from_reader trivExt (appendData [7] { data := c1Bytes, pos := 0 }) =
      .ok c1CD :=
  c1_category_count trivExt trivExt_respects { data := c1Bytes, pos := 0 } [7] c1CD (by decide)

end Jumplist
